import Mathlib

/-!
# Verification of the search-tweets pagination/retry engine

A shallow embedding of `searchtweets/result_stream.py` (and the helpers it
uses from `searchtweets/utils.py`): the JSON data model, the Python-`dict`
operations the code relies on, the `retry` wrapper, the cap normalisation in
`ResultStream.__init__`, the response projector `expand_payload` (with the
side-table construction of `formatted_output`), and the pagination state
machine `ResultStream.stream` / `ResultStream.execute_request`.

Machine integers are `Int`/`Nat` (Python integers are unbounded, so no
modular wrap is needed); fallible Python code (raised exceptions) is
embedded with `Option`/explicit error outcomes.
-/

namespace SearchTweets

/-- JSON values as produced by `json.loads`.  Numbers are embedded as `Int`
(the payloads the engine manipulates carry integer counters and string ids;
no claim involves floating point).  Python `dict`s are insertion-ordered, so
objects are association lists in insertion order with unique keys by
construction. -/
inductive Json : Type where
  | null : Json
  | bool : Bool → Json
  | int : Int → Json
  | str : String → Json
  | arr : List Json → Json
  | obj : List (String × Json) → Json
deriving Repr

mutual

/-- Decidable equality for `Json` (the `deriving` handler does not support
this nested inductive). -/
def Json.decEq : (a b : Json) → Decidable (a = b)
  | .null, .null => isTrue rfl
  | .null, .bool _ => isFalse (fun h => Json.noConfusion h)
  | .null, .int _ => isFalse (fun h => Json.noConfusion h)
  | .null, .str _ => isFalse (fun h => Json.noConfusion h)
  | .null, .arr _ => isFalse (fun h => Json.noConfusion h)
  | .null, .obj _ => isFalse (fun h => Json.noConfusion h)
  | .bool _, .null => isFalse (fun h => Json.noConfusion h)
  | .bool a, .bool b =>
      if h : a = b then isTrue (by rw [h])
      else isFalse (fun hh => h (Json.bool.inj hh))
  | .bool _, .int _ => isFalse (fun h => Json.noConfusion h)
  | .bool _, .str _ => isFalse (fun h => Json.noConfusion h)
  | .bool _, .arr _ => isFalse (fun h => Json.noConfusion h)
  | .bool _, .obj _ => isFalse (fun h => Json.noConfusion h)
  | .int _, .null => isFalse (fun h => Json.noConfusion h)
  | .int _, .bool _ => isFalse (fun h => Json.noConfusion h)
  | .int a, .int b =>
      if h : a = b then isTrue (by rw [h])
      else isFalse (fun hh => h (Json.int.inj hh))
  | .int _, .str _ => isFalse (fun h => Json.noConfusion h)
  | .int _, .arr _ => isFalse (fun h => Json.noConfusion h)
  | .int _, .obj _ => isFalse (fun h => Json.noConfusion h)
  | .str _, .null => isFalse (fun h => Json.noConfusion h)
  | .str _, .bool _ => isFalse (fun h => Json.noConfusion h)
  | .str _, .int _ => isFalse (fun h => Json.noConfusion h)
  | .str a, .str b =>
      if h : a = b then isTrue (by rw [h])
      else isFalse (fun hh => h (Json.str.inj hh))
  | .str _, .arr _ => isFalse (fun h => Json.noConfusion h)
  | .str _, .obj _ => isFalse (fun h => Json.noConfusion h)
  | .arr _, .null => isFalse (fun h => Json.noConfusion h)
  | .arr _, .bool _ => isFalse (fun h => Json.noConfusion h)
  | .arr _, .int _ => isFalse (fun h => Json.noConfusion h)
  | .arr _, .str _ => isFalse (fun h => Json.noConfusion h)
  | .arr xs, .arr ys =>
      match Json.decEqList xs ys with
      | isTrue h => isTrue (by rw [h])
      | isFalse h => isFalse (fun hh => h (Json.arr.inj hh))
  | .arr _, .obj _ => isFalse (fun h => Json.noConfusion h)
  | .obj _, .null => isFalse (fun h => Json.noConfusion h)
  | .obj _, .bool _ => isFalse (fun h => Json.noConfusion h)
  | .obj _, .int _ => isFalse (fun h => Json.noConfusion h)
  | .obj _, .str _ => isFalse (fun h => Json.noConfusion h)
  | .obj _, .arr _ => isFalse (fun h => Json.noConfusion h)
  | .obj fs, .obj gs =>
      match Json.decEqFields fs gs with
      | isTrue h => isTrue (by rw [h])
      | isFalse h => isFalse (fun hh => h (Json.obj.inj hh))

def Json.decEqList : (xs ys : List Json) → Decidable (xs = ys)
  | [], [] => isTrue rfl
  | [], _ :: _ => isFalse (fun h => List.noConfusion h)
  | _ :: _, [] => isFalse (fun h => List.noConfusion h)
  | x :: xs, y :: ys =>
      match Json.decEq x y with
      | isTrue h1 =>
          match Json.decEqList xs ys with
          | isTrue h2 => isTrue (by rw [h1, h2])
          | isFalse h2 => isFalse (fun hh => h2 (List.cons.inj hh).2
          )
      | isFalse h1 => isFalse (fun hh => h1 (List.cons.inj hh).1)

def Json.decEqFields : (fs gs : List (String × Json)) → Decidable (fs = gs)
  | [], [] => isTrue rfl
  | [], _ :: _ => isFalse (fun h => List.noConfusion h)
  | _ :: _, [] => isFalse (fun h => List.noConfusion h)
  | (k, v) :: fs, (l, w) :: gs =>
      if hk : k = l then
        match Json.decEq v w with
        | isTrue hv =>
            match Json.decEqFields fs gs with
            | isTrue ht => isTrue (by rw [hk, hv, ht])
            | isFalse ht => isFalse (fun hh => ht (List.cons.inj hh).2)
        | isFalse hv =>
            isFalse (fun hh =>
              hv (congrArg Prod.snd ((List.cons.inj hh).1)))
      else
        isFalse (fun hh => hk (congrArg Prod.fst ((List.cons.inj hh).1)))

end

instance : DecidableEq Json := Json.decEq

/-! ## Python dict primitives

The engine only ever reads dict entries by key, writes single keys
(`payload[key] = value`, which overwrites in place or appends a new key at
the end, preserving insertion order), and merges whole dicts with
`utils.merge_dicts` (`merged = dict1.copy(); merged.update(dict2)`). -/

/-- `d[key]` / `d.get(key)` on a Python dict: first (unique) binding. -/
def lookupKey : List (String × Json) → String → Option Json
  | [], _ => none
  | (k, v) :: fs, key => if k = key then some v else lookupKey fs key

/-- `d[key] = v`: overwrite the existing binding in place (keeping its
position) or append a fresh binding at the end. -/
def setKey : List (String × Json) → String → Json → List (String × Json)
  | [], key, v => [(key, v)]
  | (k, w) :: fs, key, v =>
      if k = key then (k, v) :: fs else (k, w) :: setKey fs key v

/-- `d1.update(d2)`: fold `setKey` over `d2` in order.  This is the body of
`utils.merge_dicts` for two dicts (`merged = dict1.copy();
merged.update(dict2)`). -/
def merge_dicts (d1 d2 : List (String × Json)) : List (String × Json) :=
  d2.foldl (fun acc kv => setKey acc kv.1 kv.2) d1

/-! ## The retry wrapper (`result_stream.py`, `retry` / `retried_func`)

`retried_func` loops calling the wrapped request function; the `k`-th call
(0-based) yields the response `func k`.  It breaks out (returning the
response, even a non-200 one) when the status is 200 or when `tries` has
reached `max_tries = 10`; a retryable failure (429 or >= 500) increments
`tries`, sleeps, and loops; any other non-200 status raises
`requests.exceptions.HTTPError` at once.  `remaining` is
`max_tries - tries`, so the recursion is structural; the list of
`RetryStep`s records, per retry, the 1-based attempt number, the status seen
and the seconds slept. -/

/-- An HTTP response as the retry wrapper sees it. -/
structure HResp where
  status_code : Int
  text : String
deriving DecidableEq, Repr

/-- Trace entry for one retry: `attempt` is the value of `tries` after the
increment (the 1-based number of the failed attempt), `status` the response
status, `sleep` the seconds passed to `time.sleep`. -/
structure RetryStep where
  attempt : Nat
  status : Int
  sleep : Int
deriving DecidableEq, Repr

/-- Result of the wrapped call: the returned response, or a raised
`requests.exceptions.HTTPError`. -/
inductive RetryOutcome where
  | ok (resp : HResp)
  | httpError
deriving DecidableEq, Repr

/-- The `while True` loop of `retried_func`.  `remaining = 10 - tries`,
`total` is `total_sleep_seconds`, `steps` the sleeps so far. -/
def retried_func_loop (func : Nat → HResp) :
    Nat → Nat → Int → List RetryStep → RetryOutcome × List RetryStep
  | remaining, attempt, total, steps =>
    let resp := func attempt
    if resp.status_code = 200 then (.ok resp, steps)
    else
      match remaining with
      | 0 => (.ok resp, steps)
      | r + 1 =>
          let tries : Nat := 10 - r
          if resp.status_code = 429 then
            let sleep_seconds :=
              min (((tries : Int) * 2) ^ 2) (max (900 - total) 30)
            retried_func_loop func r (attempt + 1) (total + sleep_seconds)
              (steps ++ [⟨tries, resp.status_code, sleep_seconds⟩])
          else if 500 ≤ resp.status_code then
            retried_func_loop func r (attempt + 1) total
              (steps ++ [⟨tries, resp.status_code, 30⟩])
          else (.httpError, steps)

/-- `retry(func)`: `max_tries = 10`, `tries = 0`, `total_sleep_seconds = 0`. -/
def retried_func (func : Nat → HResp) : RetryOutcome × List RetryStep :=
  retried_func_loop func 10 0 0 []

/-- Sum of the sleeps of the 429 steps in a trace (the code only adds 429
sleeps into `total_sleep_seconds`). -/
def sum429 (steps : List RetryStep) : Int :=
  (steps.map (fun st => if st.status = 429 then st.sleep else 0)).sum

/-! ## Cap normalisation (`ResultStream.__init__`) -/

/-- A Python value passed as a cap argument: an `int`, a `str`, `None`, or
anything else (`other` stands for the remaining types; only
`isinstance(_, int)` and `is not None` are inspected). -/
inductive PyVal where
  | int (n : Int)
  | str (s : String)
  | noneV
  | other
deriving DecidableEq, Repr

/-- `self.max_tweets = (max_tweets if isinstance(max_tweets, int) else
10 ** 15)`. -/
def eff_max_tweets : PyVal → PyVal
  | .int n => .int n
  | _ => .int (10 ^ 15)

/-- `self.max_requests = (max_requests if max_requests is not None else
10 ** 9)`. -/
def eff_max_requests : PyVal → PyVal
  | .noneV => .int (10 ^ 9)
  | v => v

/-- A status is retried (rather than raising at once) iff it is 429 or a
server-side (>= 500) error. -/
def retryable_status (s : Int) : Prop := s = 429 ∨ 500 ≤ s

instance (s : Int) : Decidable (retryable_status s) := by
  unfold retryable_status; infer_instance

/-- Response sequence where every attempt is rate-limited. -/
def all429 : Nat → HResp := fun i => ⟨429, "rate limited " ++ toString i⟩

/-- Response sequence where every attempt is a server-side error. -/
def all5xx : Nat → HResp := fun _ => ⟨503, "service unavailable"⟩

/-- A 429 response followed by 503 responses. -/
def mix429_503 : Nat → HResp :=
  fun i => if i = 0 then ⟨429, "rate limited"⟩ else ⟨503, "bad gateway"⟩

/-- One canned 429 response followed by 200 responses. -/
def c5net : Nat → HResp :=
  fun i => if i = 0 then ⟨429, "limit"⟩ else ⟨200, "payload"⟩

/-- One 429 response with body `b1` followed by 200 responses with body
`b2`. -/
def two429_200 (b1 b2 : String) : Nat → HResp :=
  fun i => if i = 0 then ⟨429, b1⟩ else ⟨200, b2⟩

/-! ## Side tables and the response projector (`formatted_output` /
`expand_payload`)

`formatted_output` builds six per-page lookup tables with `extract_includes`
(each a `defaultdict(lambda: {}, {include[_id]: include ...})`, so a missing
key yields a fresh empty dict; `includes_users` is
`merge_dicts(by_id, by_username)`, and since `dict.copy()` on a
`defaultdict` preserves the default factory, the merged table is again a
defaultdict with `{}` default).  The `errors` table is built but unused.
`expand_payload` recursively expands list elements and dict values in place
and then runs eight cross-reference blocks in source order.  Python
exceptions (`TypeError` on subscripting or iterating the wrong shape,
`KeyError` on a missing `username`/`id`, `IndexError` on `[-1]` of an empty
list) are embedded as `none`. -/

/-- The five side-table lookups that `expand_payload` consults (keyed by the
string ids/keys used in `extract_includes`). -/
structure Tables where
  users : List (String × Json)
  tweets : List (String × Json)
  media : List (String × Json)
  polls : List (String × Json)
  places : List (String × Json)
deriving DecidableEq, Repr

/-- `defaultdict(lambda: {}, tbl)[k]`: a missing key resolves to the empty
object. -/
def tbl_get (tbl : List (String × Json)) (k : String) : Json :=
  (lookupKey tbl k).getD (.obj [])

/-- Subscripting a string-keyed defaultdict with an arbitrary JSON value: a
string key is looked up (missing keys resolve to `{}`); other hashable
values (`None`, booleans, numbers) simply miss, yielding `{}`; unhashable
values (lists, dicts) raise `TypeError`. -/
def tbl_get_py (tbl : List (String × Json)) : Json → Option Json
  | .str s => some (tbl_get tbl s)
  | .arr _ => none
  | .obj _ => none
  | _ => some (.obj [])

/-- Whether the first character list is a prefix of the second. -/
def py_str_starts : List Char → List Char → Bool
  | [], _ => true
  | _ :: _, [] => false
  | x :: xs, y :: ys => x == y && py_str_starts xs ys

/-- The Python substring test `needle in haystack`. -/
def py_str_in (needle : List Char) : List Char → Bool
  | [] => needle.isEmpty
  | y :: ys => py_str_starts needle (y :: ys) || py_str_in needle ys

/-- The Python `k in v` test: key membership for dicts, substring test for
strings, element membership for lists; `TypeError` otherwise. -/
def py_contains (v : Json) (k : String) : Option Bool :=
  match v with
  | .obj fs => some (lookupKey fs k).isSome
  | .str s => some (py_str_in k.toList s.toList)
  | .arr xs => some (xs.contains (.str k))
  | _ => none

/-- Python iteration `for x in v`: list elements; characters (as one-char
strings) of a string; the keys of a dict; `TypeError` otherwise. -/
def py_iter : Json → Option (List Json)
  | .arr xs => some xs
  | .str s => some (s.toList.map (fun c => .str (String.mk [c])))
  | .obj fs => some (fs.map (fun kv => .str kv.1))
  | _ => none

/-- Python `v[-1]` as used on `payload["poll_ids"]`: last element of a
list (IndexError on empty), last character of a string; for a (string-keyed)
dict the integer key misses (`KeyError`), `TypeError` otherwise. -/
def py_last : Json → Option Json
  | .arr xs => xs.getLast?
  | .str s => (s.toList.getLast?).map (fun c => .str (String.mk [c]))
  | _ => none

/-- `Option`-valued `mapM` with explicit equations (a failing element aborts
the whole comprehension, as a raised exception does in Python). -/
def omapM (f : Json → Option Json) : List Json → Option (List Json)
  | [] => some []
  | x :: xs => do
      let y ← f x
      let ys ← omapM f xs
      pure (y :: ys)

/-- `if src_key in payload: payload[dst_key] = table[payload[src_key]]` —
the `author_id`, `in_reply_to_user_id` and `pinned_tweet_id` blocks of
`expand_payload`. -/
def step_attach (tbl : List (String × Json)) (sk dk : String)
    (fs : List (String × Json)) : Option (List (String × Json)) :=
  match lookupKey fs sk with
  | none => some fs
  | some v => (tbl_get_py tbl v).map (fun u => setKey fs dk u)

/-- `if "media_keys" in payload: payload["media"] =
list(includes_media[k] for k in payload["media_keys"])`. -/
def step_media (media : List (String × Json))
    (fs : List (String × Json)) : Option (List (String × Json)) :=
  match lookupKey fs "media_keys" with
  | none => some fs
  | some v => do
      let ks ← py_iter v
      let ms ← omapM (tbl_get_py media) ks
      pure (setKey fs "media" (.arr ms))

/-- `if "poll_ids" in payload: payload["poll"] =
includes_polls[payload["poll_ids"][-1]]`. -/
def step_poll (polls : List (String × Json))
    (fs : List (String × Json)) : Option (List (String × Json)) :=
  match lookupKey fs "poll_ids" with
  | none => some fs
  | some v => do
      let pid ← py_last v
      let p ← tbl_get_py polls pid
      pure (setKey fs "poll" p)

/-- `if "geo" in payload and "place_id" in payload["geo"]: payload["geo"] =
merge_dicts(payload["geo"], includes_places[payload["geo"]["place_id"]])`. -/
def step_geo (places : List (String × Json))
    (fs : List (String × Json)) : Option (List (String × Json)) :=
  match lookupKey fs "geo" with
  | none => some fs
  | some g => do
      let c ← py_contains g "place_id"
      if c then
        match g with
        | .obj gf => do
            let pid ← lookupKey gf "place_id"
            let pl ← tbl_get_py places pid
            match pl with
            | .obj pf => pure (setKey fs "geo" (.obj (merge_dicts gf pf)))
            | _ => none
        | _ => none
      else pure fs

/-- `merge_dicts(m, table[m[field]])` for one element of `mentions` /
`referenced_tweets` (raises on a non-dict element, a missing field, an
unhashable field value, or a non-dict table entry). -/
def merge_one (tbl : List (String × Json)) (field : String) :
    Json → Option Json
  | .obj mf => do
      let fv ← lookupKey mf field
      let u ← tbl_get_py tbl fv
      match u with
      | .obj uf => pure (Json.obj (merge_dicts mf uf))
      | _ => none
  | _ => none

/-- `payload[key] = list(merge_dicts(m, table[m[field]]) for m in
payload[key])` — the `mentions` and `referenced_tweets` blocks. -/
def step_merge_list (tbl : List (String × Json)) (key field : String)
    (fs : List (String × Json)) : Option (List (String × Json)) :=
  match lookupKey fs key with
  | none => some fs
  | some v => do
      let ms ← py_iter v
      let ms2 ← omapM (merge_one tbl field) ms
      pure (setKey fs key (.arr ms2))

/-- The eight cross-reference blocks of `expand_payload`, in source order. -/
def apply_triggers (t : Tables) (fs : List (String × Json)) :
    Option (List (String × Json)) := do
  let fs1 ← step_attach t.users "author_id" "author" fs
  let fs2 ← step_attach t.users "in_reply_to_user_id" "in_reply_to_user" fs1
  let fs3 ← step_media t.media fs2
  let fs4 ← step_poll t.polls fs3
  let fs5 ← step_geo t.places fs4
  let fs6 ← step_merge_list t.users "mentions" "username" fs5
  let fs7 ← step_merge_list t.tweets "referenced_tweets" "id" fs6
  step_attach t.tweets "pinned_tweet_id" "pinned_tweet" fs7

mutual

/-- `expand_payload`: primitives are returned as-is; a list is expanded
elementwise; a dict has each value expanded in place and then the eight
cross-reference blocks run on it; `None` reaches `"author_id" in payload`
and raises `TypeError`. -/
def expand_payload (t : Tables) : Json → Option Json
  | .null => none
  | .bool b => some (.bool b)
  | .int n => some (.int n)
  | .str s => some (.str s)
  | .arr xs => (expand_list t xs).map .arr
  | .obj fs => do
      let fs2 ← expand_fields t fs
      let fs3 ← apply_triggers t fs2
      pure (.obj fs3)

/-- `[expand_payload(item) for item in payload]`. -/
def expand_list (t : Tables) : List Json → Option (List Json)
  | [] => some []
  | x :: xs => do
      let y ← expand_payload t x
      let ys ← expand_list t xs
      pure (y :: ys)

/-- `for key, value in payload.items(): payload[key] = expand_payload(value)`
(keys and their order are unchanged). -/
def expand_fields (t : Tables) : List (String × Json) →
    Option (List (String × Json))
  | [] => some []
  | (k, v) :: fs => do
      let w ← expand_payload t v
      let gs ← expand_fields t fs
      pure ((k, w) :: gs)

end

mutual

/-- The value held by the caller's argument object after a successful
`expand_payload(payload)` call, under Python reference semantics: a dict
argument is mutated in place and returned (`payload[key] = ...` then
`return payload`), so its after-value is exactly the returned value; a list
argument is not rebound for the caller, but its elements are the very
objects the recursive calls mutated; primitives are immutable.  (On the
error path the exception propagates; this function is only related to the
source behaviour for calls that return normally.) -/
def payload_after (t : Tables) : Json → Option Json
  | .null => none
  | .bool b => some (.bool b)
  | .int n => some (.int n)
  | .str s => some (.str s)
  | .arr xs => (payload_after_list t xs).map .arr
  | .obj fs => expand_payload t (.obj fs)

/-- After-values of the elements of a list argument. -/
def payload_after_list (t : Tables) : List Json → Option (List Json)
  | [] => some []
  | x :: xs => do
      let y ← payload_after t x
      let ys ← payload_after_list t xs
      pure (y :: ys)

end

/-! ## Flat side-tables and projection normal forms (for the idempotence
analysis) -/

/-- The keys that the eight cross-reference blocks of `expand_payload` read
or write (the claim's reference keys together with the attached keys and the
nested `place_id`). -/
def trigger_keys : List String :=
  ["author_id", "author", "in_reply_to_user_id", "in_reply_to_user",
   "media_keys", "media", "poll_ids", "poll", "geo", "mentions",
   "referenced_tweets", "pinned_tweet_id", "pinned_tweet", "place_id"]

mutual

/-- A value free of reference keys: no object nested anywhere in it binds
any of the `trigger_keys`, every nested object has (as every Python dict
does) pairwise-distinct keys, and no `null` occurs (the projection raises on
`None`, so a `null` side-table entry would make a re-projection fail). -/
def ref_free : Json → Bool
  | .null => false
  | .bool _ => true
  | .int _ => true
  | .str _ => true
  | .arr xs => ref_free_list xs
  | .obj fs => ref_free_fields fs

def ref_free_list : List Json → Bool
  | [] => true
  | x :: xs => ref_free x && ref_free_list xs

def ref_free_fields : List (String × Json) → Bool
  | [] => true
  | (k, v) :: fs =>
      !(trigger_keys.contains k) && !((fs.map Prod.fst).contains k) &&
        ref_free v && ref_free_fields fs

end

/-- The `author_id` / `in_reply_to_user_id` / `pinned_tweet_id` block is a
no-op on `fs`: whenever the source key is bound, the table lookup succeeds
and the attached key already holds exactly the looked-up value. -/
def settledA (tbl : List (String × Json)) (sk dk : String)
    (fs : List (String × Json)) : Prop :=
  ∀ v, lookupKey fs sk = some v →
    ∃ u, tbl_get_py tbl v = some u ∧ lookupKey fs dk = some u

/-- The `media_keys` block is a no-op on `fs`. -/
def settledM (media : List (String × Json))
    (fs : List (String × Json)) : Prop :=
  ∀ v, lookupKey fs "media_keys" = some v →
    ∃ ks ms, py_iter v = some ks ∧ omapM (tbl_get_py media) ks = some ms ∧
      lookupKey fs "media" = some (.arr ms)

/-- The `poll_ids` block is a no-op on `fs`. -/
def settledP (polls : List (String × Json))
    (fs : List (String × Json)) : Prop :=
  ∀ v, lookupKey fs "poll_ids" = some v →
    ∃ pid p, py_last v = some pid ∧ tbl_get_py polls pid = some p ∧
      lookupKey fs "poll" = some p

/-- The `geo` block is a no-op on `fs`: the bound geo object has already
absorbed its place entry. -/
def settledG (places : List (String × Json))
    (fs : List (String × Json)) : Prop :=
  ∀ g, lookupKey fs "geo" = some g →
    (∃ c, py_contains g "place_id" = some c) ∧
    (py_contains g "place_id" = some true →
      ∃ gf, g = .obj gf ∧ ∃ pid, lookupKey gf "place_id" = some pid ∧
        ∃ pf, tbl_get_py places pid = some (.obj pf) ∧
          merge_dicts gf pf = gf)

/-- The `mentions` / `referenced_tweets` block is a no-op on `fs`: the bound
value is a list whose every element re-merges to itself. -/
def settledL (tbl : List (String × Json)) (key field : String)
    (fs : List (String × Json)) : Prop :=
  ∀ v, lookupKey fs key = some v →
    ∃ xs, v = .arr xs ∧ ∀ m ∈ xs, merge_one tbl field m = some m

/-- All eight cross-reference blocks are no-ops on `fs`. -/
def settled_all (t : Tables) (fs : List (String × Json)) : Prop :=
  settledA t.users "author_id" "author" fs ∧
  settledA t.users "in_reply_to_user_id" "in_reply_to_user" fs ∧
  settledM t.media fs ∧
  settledP t.polls fs ∧
  settledG t.places fs ∧
  settledL t.users "mentions" "username" fs ∧
  settledL t.tweets "referenced_tweets" "id" fs ∧
  settledA t.tweets "pinned_tweet_id" "pinned_tweet" fs

/-- Projection normal forms: the values on which `expand_payload` acts as
the identity (hereditarily, with every cross-reference block a no-op). -/
inductive Good (t : Tables) : Json → Prop where
  | bool (b : Bool) : Good t (.bool b)
  | int (n : Int) : Good t (.int n)
  | str (s : String) : Good t (.str s)
  | arr (xs : List Json) : (∀ x ∈ xs, Good t x) → Good t (.arr xs)
  | obj (fs : List (String × Json)) : (∀ kv ∈ fs, Good t kv.2) →
      settled_all t fs → Good t (.obj fs)

/-- A side-table entry whose `field` (its `username` for users, its `id` for
tweets), if bound to a string, looks back up to the entry itself; a
non-string hashable field value simply misses on re-lookup, but an
unhashable one would raise, so it is excluded. -/
def entry_ok (tbl : List (String × Json)) (field : String) (u : Json) :
    Bool :=
  match u with
  | .obj uf =>
      match lookupKey uf field with
      | some (.str s) => tbl_get tbl s == .obj uf
      | some (.arr _) => false
      | some (.obj _) => false
      | _ => true
  | _ => true

/-- Flat, self-consistent side tables: every entry of every table is free of
reference keys, and the user (resp. tweet) table is consistent under
re-lookup of a merged-in entry's `username` (resp. `id`). -/
structure FlatTables (t : Tables) : Prop where
  users_ok : ∀ kv ∈ t.users,
    ref_free kv.2 = true ∧ entry_ok t.users "username" kv.2 = true
  tweets_ok : ∀ kv ∈ t.tweets,
    ref_free kv.2 = true ∧ entry_ok t.tweets "id" kv.2 = true
  media_ok : ∀ kv ∈ t.media, ref_free kv.2 = true
  polls_ok : ∀ kv ∈ t.polls, ref_free kv.2 = true
  places_ok : ∀ kv ∈ t.places, ref_free kv.2 = true

mutual

/-- Size measure for strong induction over `Json`. -/
def jsize : Json → Nat
  | .null => 1
  | .bool _ => 1
  | .int _ => 1
  | .str _ => 1
  | .arr xs => 1 + jsize_list xs
  | .obj fs => 1 + jsize_fields fs

def jsize_list : List Json → Nat
  | [] => 0
  | x :: xs => 1 + jsize x + jsize_list xs

def jsize_fields : List (String × Json) → Nat
  | [] => 0
  | (_, v) :: fs => 1 + jsize v + jsize_fields fs

end

/-! ## Concrete pages and tables used by counterexamples and witnesses -/

/-- User entity with id `1` and username `A`. -/
def c8u1 : Json := .obj [("id", .str "1"), ("username", .str "A")]

/-- A second user entity with the same username `A` but id `2`. -/
def c8u2 : Json := .obj [("id", .str "2"), ("username", .str "A")]

/-- The merged user lookup produced by `merge_dicts(by_id, by_username)` for
an `includes.users` list `[c8u1, c8u2]`: by id `1 ↦ c8u1`, `2 ↦ c8u2`; by
username (last wins) `A ↦ c8u2`. -/
def c8tables : Tables :=
  { users := [("1", c8u1), ("2", c8u2), ("A", c8u2)],
    tweets := [], media := [], polls := [], places := [] }

/-- An item mentioning the user whose id is `1` (by that id in the
`username` slot, as the merged table permits). -/
def c8item : Json := .obj [("mentions", .arr [.obj [("username", .str "1")]])]

/-- `expand_payload c8tables c8item`. -/
def c8once : Json :=
  .obj [("mentions", .arr [.obj [("username", .str "A"), ("id", .str "1")]])]

/-- `expand_payload c8tables c8once`: the re-lookup of username `A` now hits
`c8u2` and overwrites the id. -/
def c8twice : Json :=
  .obj [("mentions", .arr [.obj [("username", .str "A"), ("id", .str "2")]])]

/-- Flat, self-consistent tables for the C8 witness. -/
def c8w_tables : Tables :=
  { users := [("u9", .obj [("username", .str "u9"), ("name", .str "Bo")])],
    tweets := [], media := [], polls := [], places := [] }

/-- Item for the C8 witness. -/
def c8w_item : Json :=
  .obj [("author_id", .str "u9"),
        ("mentions", .arr [.obj [("username", .str "u9")]])]

/-- The projection of `c8w_item` over `c8w_tables`. -/
def c8w_once : Json :=
  .obj [("author_id", .str "u9"),
        ("mentions",
          .arr [.obj [("username", .str "u9"), ("name", .str "Bo")]]),
        ("author", .obj [("username", .str "u9"), ("name", .str "Bo")])]

/-- Tables for the C7 counterexample. -/
def c7tables : Tables :=
  { users := [("u1", .obj [("id", .str "u1"), ("name", .str "Ada")])],
    tweets := [], media := [], polls := [], places := [] }

/-- Item for the C7 counterexample. -/
def c7item : Json := .obj [("author_id", .str "u1")]

/-- The value the C7 item holds after the projection call: the author has
been attached in place. -/
def c7expanded : Json :=
  .obj [("author_id", .str "u1"),
        ("author", .obj [("id", .str "u1"), ("name", .str "Ada")])]

/-- Side tables containing only the media entry `m1`. -/
def c9tables : Tables :=
  { users := [], tweets := [],
    media := [("m1", .obj [("media_key", .str "m1"), ("type", .str "photo")])],
    polls := [], places := [] }

/-- Item carrying `media_keys: ["m1", "m2"]` with only `m1` resolvable. -/
def c9item : List (String × Json) := [("media_keys", .arr [.str "m1", .str "m2"])]

/-- The projection of `c9item`: the resolved `m1` followed by the empty
object standing in for the missing `m2`. -/
def c9expanded : Json :=
  .obj [("media_keys", .arr [.str "m1", .str "m2"]),
        ("media", .arr [.obj [("media_key", .str "m1"), ("type", .str "photo")],
                        .obj []])]

/-! ## The pagination state machine (`ResultStream.stream`,
`ResultStream.execute_request`, and the emission generators of
`formatted_output`)

The network is abstracted as a function from the request index (the value of
`n_requests` when `request(...)` is called) to what the retry-wrapped
`request` delivered: either a raised exception, a body `json.loads`
rejects, or a parsed JSON value.  `json.loads` maps JSON `null` to Python
`None`, so `resp.get(key, None)` yields Python `None` both for a missing
key and for an explicit null; the embedding folds both into `Option.none`
(`py_get`).  Traces record each observable event paired with the machine
state once the generator has advanced past it. -/

/-- One answer of the (retry-wrapped) `request` call. -/
inductive PageBody where
  | raises
  | notJson (s : String)
  | json (j : Json)
deriving DecidableEq, Repr

/-- The stream configuration fixed by `__init__`: the effective caps, the
output-format string, whether the counts endpoint is in use
(`search_type == "counts"`), and whether the endpoint path contains
`tweets/search/all` (the extra 2-second pause).  The caps are taken as
integers (the comparisons `total_results < max_tweets` and
`n_requests <= max_requests` are integer comparisons for integer-valued
caps). -/
structure StreamCfg where
  max_tweets : Int
  max_requests : Int
  output_format : String
  counts_mode : Bool
  search_all : Bool
deriving DecidableEq, Repr

/-- The mutable fields of a `ResultStream` touched by `stream()` /
`execute_request`, plus whether the HTTP session is currently open.
`session_request_counter` mirrors the class-level counter for a fresh
process running a single stream. -/
structure SState where
  total_results : Int
  n_requests : Nat
  session_request_counter : Nat
  request_params : List (String × Json)
  next_token : Option Json
  current_tweets : Option Json
  current_response : Option Json
  includes : Option Json
  meta : Option Json
  session_open : Bool
deriving DecidableEq, Repr

/-- Observable events of one stream run. -/
inductive Event where
  | open_session
  | close_session
  | request_done
  | emit (j : Json)
  | print_parse_error
  | slept (n : Nat)
  | raised
deriving DecidableEq, Repr

/-- How the stream run ended: normal termination (the `break`/close path of
`stream()`), an uncaught exception, or exhaustion of the simulation fuel. -/
inductive ExitKind where
  | normal
  | raised
  | fuelOut
deriving DecidableEq, Repr

/-- A finished simulation: the event trace (each event paired with the
state after it), how it ended, and the final state. -/
structure StreamOutcome where
  trace : List (Event × SState)
  exit : ExitKind
  final : SState
deriving DecidableEq, Repr

/-- `resp.get(key, None)` on a parsed JSON object: both a missing key and an
explicit JSON null give Python `None`. -/
def py_get (fs : List (String × Json)) (k : String) : Option Json :=
  match lookupKey fs k with
  | some .null => none
  | some v => some v
  | none => none

/-- Python truthiness of a parsed JSON value (`if self.next_token and ...`). -/
def json_truthy : Json → Bool
  | .null => false
  | .bool b => b
  | .int n => decide (n ≠ 0)
  | .str s => decide (s ≠ "")
  | .arr xs => decide (xs ≠ [])
  | .obj fs => decide (fs ≠ [])

/-- `ResultStream.execute_request`: refresh the session every 20 requests,
issue the request (`n_requests` counts completed calls, so a raising call
does not increment it), then parse.  The bare `except` turns any failure
inside the `try` into a printed message, keeping whatever state had already
been assigned: a body that is not JSON leaves everything stale; a non-object
JSON value updates only `current_response` (the `resp.get("data", ...)` call
then raises `AttributeError`); an object whose `meta` is `None` or not an
object updates everything except `next_token` (the `self.meta.get(...)`
call raises). -/
def execute_request (_cfg : StreamCfg) (net : Nat → PageBody) (s : SState) :
    List (Event × SState) × Option SState :=
  let ev0 : List (Event × SState) :=
    if s.n_requests % 20 = 0 ∧ s.n_requests > 1 then
      [(.close_session, { s with session_open := false }),
       (.open_session, { s with session_open := true })]
    else []
  match net s.n_requests with
  | .raises => (ev0 ++ [(.raised, s)], none)
  | .notJson _ =>
      let s1 := { s with
        n_requests := s.n_requests + 1,
        session_request_counter := s.session_request_counter + 1 }
      (ev0 ++ [(.request_done, s1), (.print_parse_error, s1)], some s1)
  | .json j =>
      let s1 := { s with
        n_requests := s.n_requests + 1,
        session_request_counter := s.session_request_counter + 1 }
      match j with
      | .obj fs =>
          let meta := py_get fs "meta"
          match meta with
          | some (.obj mfs) =>
              let s2 := { s1 with
                current_response := some j,
                current_tweets := py_get fs "data",
                includes := py_get fs "includes",
                meta := some (.obj mfs),
                next_token := py_get mfs "next_token" }
              (ev0 ++ [(.request_done, s2)], some s2)
          | _ =>
              let s2 := { s1 with
                current_response := some j,
                current_tweets := py_get fs "data",
                includes := py_get fs "includes",
                meta := meta }
              (ev0 ++ [(.request_done, s2), (.print_parse_error, s2)],
                some s2)
      | _ =>
          let s2 := { s1 with current_response := some j }
          (ev0 ++ [(.request_done, s2), (.print_parse_error, s2)], some s2)

/-- `extract_includes(expansion, _id)` over one entry list: the dict
comprehension `{include[_id]: include for include in ...}` (later duplicate
ids override in place).  An entry that is not an object, or whose id field
is missing, raises; ids are modeled as strings (the tables are consulted by
string keys throughout). -/
def extract_entries (idkey : String) (es : List Json) :
    Option (List (String × Json)) :=
  es.foldlM (fun acc e =>
    match e with
    | .obj ef =>
        match lookupKey ef idkey with
        | some (.str s) => some (setKey acc s (.obj ef))
        | _ => none
    | _ => none) []

/-- `extract_includes(expansion, _id)`: the empty defaultdict when
`self.includes` is `None` or lacks the section; otherwise the keyed entry
dict.  The membership test and the iteration follow Python semantics and
may raise on ill-shaped `includes` values. -/
def extract_includes_model (includes : Option Json)
    (expansion idkey : String) : Option (List (String × Json)) :=
  match includes with
  | none => some []
  | some inc =>
      match py_contains inc expansion with
      | none => none
      | some false => some []
      | some true =>
          match inc with
          | .obj fs =>
              match lookupKey fs expansion with
              | some v =>
                  match py_iter v with
                  | none => none
                  | some es => extract_entries idkey es
              | none => some []
          | _ => none

/-- The side-table construction at the top of `formatted_output`:
`includes_users = merge_dicts(extract_includes("users"),
extract_includes("users", "username"))` (the `dict.copy()` inside
`merge_dicts` preserves the defaultdict default, so the merged table still
resolves misses to `{}`); tweets, media (by `media_key`), polls and places
by id; the `errors` table is built and discarded. -/
def build_tables (includes : Option Json) : Option Tables := do
  let users_by_id ← extract_includes_model includes "users" "id"
  let users_by_username ← extract_includes_model includes "users" "username"
  let tweets0 ← extract_includes_model includes "tweets" "id"
  let media0 ← extract_includes_model includes "media" "media_key"
  let polls0 ← extract_includes_model includes "polls" "id"
  let places0 ← extract_includes_model includes "places" "id"
  let _errors ← extract_includes_model includes "errors" "id"
  pure { users := merge_dicts users_by_id users_by_username,
         tweets := tweets0, media := media0, polls := polls0,
         places := places0 }

/-- `for included_id, included_tweet in extract_includes("tweets").items():
includes_tweets[included_id] = expand_payload(included_tweet)` — sequential
update of the tweets table, each expansion seeing the table as updated so
far.  (Value-level view of the in-place loop; in Python the two dicts alias
the same entry objects, which coincides with this view except for
self-referential mid-expansion aliasing, which no claim exercises.) -/
def pre_expand_tweets (t : Tables) : List (String × Json) → Option Tables
  | [] => some t
  | (k, tw) :: rest => do
      let tw2 ← expand_payload t tw
      pre_expand_tweets { t with tweets := setKey t.tweets k tw2 } rest

/-- The table construction performed on every `formatted_output` call
(including the pre-expansion of included tweets when the search type is
`tweets`). -/
def formatted_tables (cfg : StreamCfg) (includes : Option Json) :
    Option Tables := do
  let t ← build_tables includes
  if cfg.counts_mode then pure t
  else
    let raw ← extract_includes_model includes "tweets" "id"
    pre_expand_tweets t raw

/-- The value of `self.current_response` at a yield (always assigned by the
time an emission is reachable; `.null` is an unreachable placeholder). -/
def emit_val (s : SState) : Json := (s.current_response).getD .null

/-- `output_response_format`: skip the page when the cap is already met (in
tweets mode), else yield the page and then add `self.meta["result_count"]`
to `total_results` — raising (after the yield) when `meta` is not an object
carrying an integer (or boolean) count. -/
def output_r (cfg : StreamCfg) (s : SState) :
    List (Event × SState) × Option SState :=
  if ¬ cfg.counts_mode ∧ s.total_results ≥ cfg.max_tweets then ([], some s)
  else
    if cfg.counts_mode then ([(.emit (emit_val s), s)], some s)
    else
      match s.meta with
      | some (.obj mfs) =>
          match lookupKey mfs "result_count" with
          | some (.int n) =>
              let s2 := { s with total_results := s.total_results + n }
              ([(.emit (emit_val s), s2)], some s2)
          | some (.bool b) =>
              let s2 := { s with
                total_results := s.total_results + (if b then 1 else 0) }
              ([(.emit (emit_val s), s2)], some s2)
          | _ => ([(.emit (emit_val s), s), (.raised, s)], none)
      | _ => ([(.emit (emit_val s), s), (.raised, s)], none)

/-- The per-tweet loop of `output_atomic_format`: stop at the cap, expand
each tweet (an expansion failure propagates out of the generator), yield it
and count it. -/
def output_a_loop (cfg : StreamCfg) (t : Tables) :
    List Json → SState → List (Event × SState) × Option SState
  | [], s => ([], some s)
  | tw :: rest, s =>
      if s.total_results ≥ cfg.max_tweets then ([], some s)
      else
        match expand_payload t tw with
        | none => ([(.raised, s)], none)
        | some y =>
            let s2 := { s with total_results := s.total_results + 1 }
            let (evs, res) := output_a_loop cfg t rest s2
            ((.emit y, s2) :: evs, res)

/-- The per-tweet loop of `output_message_stream_format`: stop at the cap,
yield the raw tweet and count it. -/
def output_m_loop (cfg : StreamCfg) :
    List Json → SState → List (Event × SState) × SState
  | [], s => ([], s)
  | tw :: rest, s =>
      if s.total_results ≥ cfg.max_tweets then ([], s)
      else
        let s2 := { s with total_results := s.total_results + 1 }
        let (evs, s3) := output_m_loop cfg rest s2
        ((.emit tw, s2) :: evs, s3)

/-- `formatted_output`: build the side tables (this may raise), then run the
generator selected by the output-format string; an unknown format makes
`response_format.get(self.output_format)()` call `None` and raise.  The
`a`/`m` generators iterate `self.current_tweets` (raising if it is not
iterable); `m` additionally yields `self.includes` and `self.meta` when they
are not `None`. -/
def formatted_output (cfg : StreamCfg) (s : SState) :
    List (Event × SState) × Option SState :=
  match formatted_tables cfg s.includes with
  | none => ([(.raised, s)], none)
  | some t =>
      if cfg.output_format = "r" then output_r cfg s
      else if cfg.output_format = "a" then
        match s.current_tweets with
        | none => ([(.raised, s)], none)
        | some v =>
            match py_iter v with
            | none => ([(.raised, s)], none)
            | some tws => output_a_loop cfg t tws s
      else if cfg.output_format = "m" then
        match s.current_tweets with
        | none => ([(.raised, s)], none)
        | some v =>
            match py_iter v with
            | none => ([(.raised, s)], none)
            | some tws =>
                let (evs, s2) := output_m_loop cfg tws s
                let evs2 := match s2.includes with
                  | some inc => evs ++ [(.emit inc, s2)]
                  | none => evs
                let evs3 := match s2.meta with
                  | some m => evs2 ++ [(.emit m, s2)]
                  | none => evs2
                (evs3, some s2)
      else ([(.raised, s)], none)

/-- The state a `ResultStream` starts from (`__init__`). -/
def init_state (params : List (String × Json)) : SState :=
  { total_results := 0, n_requests := 0, session_request_counter := 0,
    request_params := params, next_token := none, current_tweets := none,
    current_response := none, includes := none, meta := none,
    session_open := false }

/-- The last recorded state of a trace, or the given fallback. -/
def last_state (evs : List (Event × SState)) (s : SState) : SState :=
  ((evs.getLast?).map Prod.snd).getD s

/-- The state a generator step ends in: the delivered state on success, the
last recorded state (the state at the uncaught exception) on a raise. -/
def out_state (r : Option SState) (evs : List (Event × SState))
    (s : SState) : SState :=
  match r with
  | some s1 => s1
  | none => last_state evs s

/-- The `while True` loop of `ResultStream.stream` (lines 357-383),
simulated with fuel: stop when `current_tweets` is `None` (clear the page
state and close the session); otherwise emit via `formatted_output`; then,
when a truthy `next_token` remains and both caps allow it, merge the token
into the request parameters (after the 2-second full-archive pause, when
configured) and request the next page; otherwise clear and close. -/
def stream_loop (cfg : StreamCfg) (net : Nat → PageBody) :
    Nat → SState → StreamOutcome
  | 0, s => { trace := [], exit := .fuelOut, final := s }
  | fuel + 1, s =>
      if s.current_tweets = none then
        let s2 := { s with
          current_response := none, current_tweets := none,
          session_open := false }
        { trace := [(.close_session, s2)], exit := .normal, final := s2 }
      else
        match formatted_output cfg s with
        | (evs, none) =>
            { trace := evs, exit := .raised, final := last_state evs s }
        | (evs, some s1) =>
            if (match s1.next_token with
                    | none => false
                    | some tok => json_truthy tok) = true ∧
                s1.total_results < cfg.max_tweets ∧
                (s1.n_requests : Int) ≤ cfg.max_requests then
              let tok := (s1.next_token).getD .null
              let p2 := merge_dicts s1.request_params
                [("next_token", tok)]
              let s2 := { s1 with request_params := p2 }
              let evSleep : List (Event × SState) :=
                if cfg.search_all then [(.slept 2, s2)] else []
              match execute_request cfg net s2 with
              | (evs2, none) =>
                  { trace := evs ++ evSleep ++ evs2, exit := .raised,
                    final := last_state evs2 s2 }
              | (evs2, some s3) =>
                  let out := stream_loop cfg net fuel s3
                  { trace := evs ++ evSleep ++ evs2 ++ out.trace,
                    exit := out.exit, final := out.final }
            else
              let s2 := { s1 with
                current_response := none, current_tweets := none,
                session_open := false }
              { trace := evs ++ [(.close_session, s2)], exit := .normal,
                final := s2 }

/-- A full run of `ResultStream.stream()`: open the session, issue the
first request unconditionally, then run the pagination loop. -/
def stream_run (cfg : StreamCfg) (net : Nat → PageBody)
    (params : List (String × Json)) (fuel : Nat) : StreamOutcome :=
  let s1 := { init_state params with session_open := true }
  match execute_request cfg net s1 with
  | (evs, none) =>
      { trace := (.open_session, s1) :: evs, exit := .raised,
        final := last_state evs s1 }
  | (evs, some s2) =>
      let out := stream_loop cfg net fuel s2
      { trace := (.open_session, s1) :: (evs ++ out.trace),
        exit := out.exit, final := out.final }

/-- Whether the output format counts emitted items one at a time (the
atomic and message-stream modes). -/
def per_item_mode (cfg : StreamCfg) : Bool :=
  cfg.output_format == "a" || cfg.output_format == "m"

/-- The per-state cap facts of the amended C1: `n_requests` never exceeds
`max(max_requests, 0) + 1`, and in the per-item output modes
`total_results` never exceeds `max(max_tweets, 0)`. -/
def C1Inv (cfg : StreamCfg) (s : SState) : Prop :=
  (s.n_requests : Int) ≤ max cfg.max_requests 0 + 1 ∧
  (per_item_mode cfg = true → s.total_results ≤ max cfg.max_tweets 0)

/-- Counter monotonicity between two states: requests always, items in the
per-item modes. -/
def mono_pair (am : Bool) (a b : SState) : Prop :=
  a.n_requests ≤ b.n_requests ∧
  (am = true → a.total_results ≤ b.total_results)

/-- The counters are monotone along a trace from `s` to the final state. -/
def mono_trace (am : Bool) : SState → List (Event × SState) → SState → Prop
  | s, [], f => mono_pair am s f
  | s, e :: evs, f => mono_pair am s e.2 ∧ mono_trace am e.2 evs f

/-! ### Concrete runs for the stream counterexamples -/

/-- A page with one tweet, a next token and `result_count` 1. -/
def page1 : Json :=
  .obj [("data", .arr [.obj [("id", .str "t1"), ("text", .str "hello")]]),
        ("meta", .obj [("next_token", .str "tok"), ("result_count", .int 1)])]

/-- The tweet of `page1`. -/
def c3tweet : Json := .obj [("id", .str "t1"), ("text", .str "hello")]

/-- The meta object of `page1`. -/
def c3meta : Json :=
  .obj [("next_token", .str "tok"), ("result_count", .int 1)]

/-- Configuration for the C1 counterexample: message-stream mode with
`max_requests = 1`. -/
def c1cfg : StreamCfg :=
  { max_tweets := 2, max_requests := 1, output_format := "m",
    counts_mode := false, search_all := false }

/-- Network delivering `page1` on every request. -/
def c1net : Nat → PageBody := fun _ => .json page1

/-- Configuration for the C3 run: message-stream mode, item cap 3. -/
def c3cfg : StreamCfg :=
  { max_tweets := 3, max_requests := 10 ^ 9, output_format := "m",
    counts_mode := false, search_all := false }

/-- Network for the C3 run: a good first page, then bodies that are not
valid JSON. -/
def c3net : Nat → PageBody :=
  fun i => if i = 0 then .json page1 else .notJson "<html>502</html>"

/-- Network for the C4 counterexample: a good first page, then the request
function raises. -/
def c4net : Nat → PageBody :=
  fun i => if i = 0 then .json page1 else .raises

/-- A page with one tweet, `result_count` 5 and no next token. -/
def pageR : Json :=
  .obj [("data", .arr [.obj [("id", .str "t1")]]),
        ("meta", .obj [("result_count", .int 5)])]

/-- A page with one tweet, `result_count` -3 and no next token. -/
def pageD : Json :=
  .obj [("data", .arr [.obj [("id", .str "t1")]]),
        ("meta", .obj [("result_count", .int (-3))])]

/-- Page-mode configuration with item cap 1 for the C1 counterexample's
item-cap part. -/
def c1rcfg : StreamCfg :=
  { max_tweets := 1, max_requests := 10 ^ 9, output_format := "r",
    counts_mode := false, search_all := false }

/-- Network delivering `pageR` on every request. -/
def c1rnet : Nat → PageBody := fun _ => .json pageR

/-- Page-mode configuration with item cap 100 for the C1 counterexample's
monotonicity part. -/
def c1dcfg : StreamCfg :=
  { max_tweets := 100, max_requests := 10 ^ 9, output_format := "r",
    counts_mode := false, search_all := false }

/-- Network delivering `pageD` on every request. -/
def c1dnet : Nat → PageBody := fun _ => .json pageD

/-- The per-retry trace invariant: the step recorded at position `k` of a
trace `L` concerns the `k`-th (0-based) attempt: it records that attempt's
status, the 1-based attempt number `k+1`, and the slept seconds, which for a
429 follow the exponential-backoff formula over the cumulative prior 429
sleep and for a server error are the fixed 30. -/
def StepSpec (func : Nat → HResp) (L : List RetryStep) (k : Nat)
    (hk : k < L.length) : Prop :=
  (L.get ⟨k, hk⟩).status = (func k).status_code ∧
  (L.get ⟨k, hk⟩).attempt = k + 1 ∧
  ((func k).status_code = 429 →
    (L.get ⟨k, hk⟩).sleep =
      min ((((k : Int) + 1) * 2) ^ 2) (max (900 - sum429 (L.take k)) 30)) ∧
  (500 ≤ (func k).status_code → (L.get ⟨k, hk⟩).sleep = 30)

/-! # Theorems -/

/-! ## Retry wrapper lemmas -/

theorem take_append_small {A : Type} (l1 l2 : List A) (n : Nat)
    (h : n ≤ l1.length) : (l1 ++ l2).take n = l1.take n := by
  rw [List.take_append_eq_append_take]
  have h0 : n - l1.length = 0 := by omega
  simp [h0]

theorem retried_func_loop_all_retryable (func : Nat → HResp)
    (hn : ∀ i, (func i).status_code ≠ 200)
    (hr : ∀ i, retryable_status (func i).status_code) :
    ∀ (r attempt : Nat) (total : Int) (steps : List RetryStep),
      (retried_func_loop func r attempt total steps).1 = .ok (func (attempt + r)) ∧
      (retried_func_loop func r attempt total steps).2.length = steps.length + r := by
  intro r
  induction r with
  | zero =>
      intro attempt total steps
      unfold retried_func_loop
      dsimp only
      rw [if_neg (hn attempt)]
      simp
  | succ r ih =>
      intro attempt total steps
      unfold retried_func_loop
      dsimp only
      rw [if_neg (hn attempt)]
      have hidx : attempt + 1 + r = attempt + (r + 1) := by omega
      rcases hr attempt with h429 | h5xx
      · rw [if_pos h429]
        refine ⟨?_, ?_⟩
        · rw [(ih (attempt + 1) _ _).1, hidx]
        · rw [(ih (attempt + 1) _ _).2]
          simp only [List.length_append, List.length_singleton]
          omega
      · by_cases h429 : (func attempt).status_code = 429
        · rw [if_pos h429]
          refine ⟨?_, ?_⟩
          · rw [(ih (attempt + 1) _ _).1, hidx]
          · rw [(ih (attempt + 1) _ _).2]
            simp only [List.length_append, List.length_singleton]
            omega
        · rw [if_neg h429, if_pos h5xx]
          refine ⟨?_, ?_⟩
          · rw [(ih (attempt + 1) _ _).1, hidx]
          · rw [(ih (attempt + 1) _ _).2]
            simp only [List.length_append, List.length_singleton]
            omega

theorem retried_func_loop_raises (func : Nat → HResp)
    (hn : ∀ i, (func i).status_code ≠ 200) :
    ∀ (r attempt : Nat) (total : Int) (steps : List RetryStep) (j : Nat),
      attempt ≤ j → j < attempt + r →
      (∀ i, attempt ≤ i → i < j → retryable_status (func i).status_code) →
      ¬ retryable_status (func j).status_code →
      (retried_func_loop func r attempt total steps).1 = .httpError := by
  intro r
  induction r with
  | zero =>
      intro attempt total steps j h1 h2 _ _
      omega
  | succ r ih =>
      intro attempt total steps j h1 h2 hpre hj
      unfold retried_func_loop
      dsimp only
      rw [if_neg (hn attempt)]
      rcases Nat.eq_or_lt_of_le h1 with heq | hlt
      · subst heq
        have hne429 : ¬ (func attempt).status_code = 429 :=
          fun h => hj (Or.inl h)
        have hne5 : ¬ 500 ≤ (func attempt).status_code :=
          fun h => hj (Or.inr h)
        rw [if_neg hne429, if_neg hne5]
      · have hatt : retryable_status (func attempt).status_code :=
          hpre attempt le_rfl hlt
        rcases hatt with h429 | h5xx
        · rw [if_pos h429]
          exact ih (attempt + 1) _ _ j hlt (by omega)
            (fun i hi1 hi2 => hpre i (by omega) hi2) hj
        · by_cases h429 : (func attempt).status_code = 429
          · rw [if_pos h429]
            exact ih (attempt + 1) _ _ j hlt (by omega)
              (fun i hi1 hi2 => hpre i (by omega) hi2) hj
          · rw [if_neg h429, if_pos h5xx]
            exact ih (attempt + 1) _ _ j hlt (by omega)
              (fun i hi1 hi2 => hpre i (by omega) hi2) hj

theorem StepSpec_append (func : Nat → HResp) (steps : List RetryStep)
    (x : RetryStep) (k : Nat) (hk : k < steps.length)
    (h : StepSpec func steps k hk) :
    StepSpec func (steps ++ [x]) k
      (by rw [List.length_append]; omega) := by
  unfold StepSpec at h ⊢
  have hget : (steps ++ [x]).get ⟨k, by rw [List.length_append]; omega⟩ =
      steps.get ⟨k, hk⟩ := by
    simp only [List.get_eq_getElem]
    exact List.getElem_append_left hk
  have htake : (steps ++ [x]).take k = steps.take k :=
    take_append_small steps [x] k (by omega)
  rw [hget, htake]
  exact h

theorem sum429_append_one (steps : List RetryStep) (x : RetryStep) :
    sum429 (steps ++ [x]) =
      sum429 steps + (if x.status = 429 then x.sleep else 0) := by
  simp [sum429]

theorem retried_func_loop_stepspec (func : Nat → HResp) :
    ∀ (r attempt : Nat) (total : Int) (steps : List RetryStep),
      attempt + r = 10 →
      steps.length = attempt →
      total = sum429 steps →
      (∀ k (hk : k < steps.length), StepSpec func steps k hk) →
      ∀ k (hk : k < (retried_func_loop func r attempt total steps).2.length),
        StepSpec func (retried_func_loop func r attempt total steps).2 k hk := by
  intro r
  induction r with
  | zero =>
      intro attempt total steps _ _ _ hsteps
      unfold retried_func_loop
      dsimp only
      split
      · exact hsteps
      · exact hsteps
  | succ r ih =>
      intro attempt total steps h10 hlen htot hsteps
      unfold retried_func_loop
      dsimp only
      split
      · exact hsteps
      · next h200 =>
        have htries : (10 : Nat) - r = attempt + 1 := by omega
        have hnewspec : ∀ (sl : Int),
            (sl = min ((((attempt : Int) + 1) * 2) ^ 2) (max (900 - total) 30) ∧
              (func attempt).status_code = 429) ∨
            (sl = 30 ∧ ¬ (func attempt).status_code = 429 ∧
              500 ≤ (func attempt).status_code) →
            ∀ k (hk : k < (steps ++
                [(⟨10 - r, (func attempt).status_code, sl⟩ : RetryStep)]).length),
              StepSpec func
                (steps ++
                  [(⟨10 - r, (func attempt).status_code, sl⟩ : RetryStep)])
                k hk := by
          intro sl hsl k hk
          rw [List.length_append, List.length_singleton] at hk
          rcases Nat.lt_or_ge k steps.length with hklt | hkge
          · exact StepSpec_append func steps _ k hklt (hsteps k hklt)
          · have hkeq : k = steps.length := by omega
            subst hkeq
            unfold StepSpec
            have hget : (steps ++
                [(⟨10 - r, (func attempt).status_code, sl⟩ : RetryStep)]).get
                ⟨steps.length, by simp⟩ =
                ⟨10 - r, (func attempt).status_code, sl⟩ := by
              simp only [List.get_eq_getElem]
              rw [List.getElem_append_right (by omega)]
              simp
            have htake : (steps ++
                [(⟨10 - r, (func attempt).status_code, sl⟩ : RetryStep)]).take
                steps.length = steps := List.take_left steps _
            rw [hget, htake]
            refine ⟨by simp [hlen], by simp [htries, hlen], ?_, ?_⟩
            · intro hc
              rw [hlen] at hc
              rcases hsl with ⟨hsl, _⟩ | ⟨_, hne, _⟩
              · dsimp only
                rw [hsl, htot, hlen]
              · exact absurd hc hne
            · intro h5
              rw [hlen] at h5
              rcases hsl with ⟨_, hc⟩ | ⟨hsl, _, _⟩
              · rw [hc] at h5
                omega
              · dsimp only
                rw [hsl]
        have hcast : ((10 - r : Nat) : Int) = (attempt : Int) + 1 := by
          omega
        split
        · next h429 =>
            refine ih (attempt + 1) _ _ (by omega) (by simp [hlen]) ?_ ?_
            · rw [sum429_append_one]
              dsimp only
              rw [if_pos h429, htot]
            · intro k hk
              refine hnewspec _ (Or.inl ⟨?_, h429⟩) k hk
              rw [hcast]
        · split
          · next h429 h5xx =>
              refine ih (attempt + 1) _ _ (by omega) (by simp [hlen]) ?_ ?_
              · rw [sum429_append_one]
                dsimp only
                rw [if_neg h429, htot]
                ring
              · exact fun k hk => hnewspec 30 (Or.inr ⟨rfl, h429, h5xx⟩) k hk
          · exact fun k hk => hsteps k hk

/-! ## C2 -/

/-- C2 counterexample: with every attempt answering 429 (a non-200 status on
every attempt), the executor does not raise after its budget of 10 retries:
it returns the 11th (still 429) response. -/
theorem C2_counterexample :
    (retried_func all429).1 = .ok ⟨429, "rate limited 10"⟩ ∧
    (retried_func all429).1 ≠ .httpError ∧
    (retried_func all429).2.length = 10 := by
  refine ⟨by decide, by decide, by decide⟩

/-- C2, amended: on a sequence of responses in which every attempt returns a
non-200 status, the executor raises `HTTPError` only when some attempt among
the first ten returns a non-retryable status (neither 429 nor >= 500), and it
does so immediately at that attempt; if every attempt is retryable (429 or
5xx) it instead stops after 10 retries and returns the 11th, non-200,
response without raising. -/
theorem C2_amended (func : Nat → HResp)
    (hn : ∀ i, (func i).status_code ≠ 200) :
    ((∀ i, retryable_status (func i).status_code) →
      (retried_func func).1 = .ok (func 10) ∧
      (func 10).status_code ≠ 200 ∧
      (retried_func func).2.length = 10) ∧
    (∀ j, j < 10 → (∀ i, i < j → retryable_status (func i).status_code) →
      ¬ retryable_status (func j).status_code →
      (retried_func func).1 = .httpError) := by
  constructor
  · intro hr
    have h := retried_func_loop_all_retryable func hn hr 10 0 0 []
    exact ⟨h.1, hn 10, h.2⟩
  · intro j hj hpre hnr
    exact retried_func_loop_raises func hn 10 0 0 [] j (Nat.zero_le j)
      (by omega) (fun i _ hi => hpre i hi) hnr

/-- Witness for `C2_amended` at a concrete all-retryable sequence (a 429
followed by 503s). -/
theorem C2_amended_witness :
    (retried_func mix429_503).1 = .ok ⟨503, "bad gateway"⟩ :=
  have h := (C2_amended mix429_503 (by
    intro i
    by_cases h : i = 0 <;> simp [mix429_503, h])).1 (by
    intro i
    by_cases h : i = 0 <;> simp [mix429_503, h, retryable_status])
  h.1

/-! ## C5 -/

/-- C5 counterexample: on one 429 followed by a 200, the executor retries
exactly once and does return the 200 payload, but the single sleep is 4
seconds, not at least 30. -/
theorem C5_counterexample :
    retried_func c5net = (.ok ⟨200, "payload"⟩, [⟨1, 429, 4⟩]) ∧
    ¬ (30 ≤ (4 : Int)) := by
  exact ⟨by decide, by decide⟩

/-- C5, amended: for one 429 response followed by a 200 response, the
executor retries exactly once and returns the 200 payload, and the sleep
before the successful attempt is exactly
`min ((1*2)^2, max (900 - 0, 30)) = 4` seconds (not >= 30). -/
theorem C5_amended (b1 b2 : String) :
    retried_func (two429_200 b1 b2) =
      (.ok ⟨200, b2⟩, [⟨1, 429, 4⟩]) := by
  unfold retried_func retried_func_loop two429_200
  norm_num
  unfold retried_func_loop
  norm_num

/-! ## C6 -/

/-- C6, confirmed: whenever the `k`-th attempt (0-based `k`; the claim's
1-based attempt number is `k+1`) fails and is retried, the recorded trace
step shows: for a 429 the sleep is exactly
`min (((k+1)*2)^2) (max (900 - cumulative prior 429 sleep) 30)` and for a
server-side (>= 500) status the sleep is exactly 30 (`StepSpec` spells out
these formulas over the trace returned by `retried_func`). -/
theorem C6_theorem (func : Nat → HResp) (k : Nat)
    (hk : k < (retried_func func).2.length) :
    StepSpec func (retried_func func).2 k hk :=
  retried_func_loop_stepspec func 10 0 0 [] rfl rfl rfl
    (fun k hk => absurd hk (by simp)) k hk

/-- Witness for `C6_theorem`: on the all-503 sequence the first retry step
slept exactly 30 seconds. -/
theorem C6_theorem_witness :
    0 < (retried_func all5xx).2.length ∧
    ((retried_func all5xx).2.get ⟨0, by decide⟩).sleep = 30 :=
  ⟨by decide, (C6_theorem all5xx 0 (by decide)).2.2.2 (by decide)⟩

/-! ## C10 -/

/-- C10 counterexample: passing the integer `-1` as `max_tweets` makes the
effective item cap `-1`, which is not a positive integer, so the caps are
not positive for every construction. -/
theorem C10_counterexample :
    eff_max_tweets (.int (-1)) = .int (-1) ∧ ¬ (0 < (-1 : Int)) := by
  exact ⟨rfl, by decide⟩

/-- C10, amended: construction never fails on cap arguments: a `None`
`max_requests` becomes `10^9` and any other value is kept as given; an
integer `max_tweets` is kept as given (so a non-positive integer yields a
non-positive cap) while any non-integer becomes `10^15`; hence the effective
item cap is a positive integer except when the caller passed a non-positive
integer themselves. -/
theorem C10_amended :
    eff_max_requests .noneV = .int (10 ^ 9) ∧
    (∀ v, v ≠ .noneV → eff_max_requests v = v) ∧
    (∀ n : Int, eff_max_tweets (.int n) = .int n) ∧
    (∀ v, (∀ n, v ≠ .int n) → eff_max_tweets v = .int (10 ^ 15)) ∧
    (∀ v m, eff_max_tweets v = .int m → 0 < m ∨ v = .int m) := by
  refine ⟨rfl, ?_, fun n => rfl, ?_, ?_⟩
  · intro v hv
    cases v with
    | noneV => exact absurd rfl hv
    | int n => rfl
    | str s => rfl
    | other => rfl
  · intro v hv
    cases v with
    | int n => exact absurd rfl (hv n)
    | noneV => rfl
    | str s => rfl
    | other => rfl
  · intro v m hm
    cases v with
    | int n => exact Or.inr hm
    | noneV => exact Or.inl (by cases hm; norm_num)
    | str s => exact Or.inl (by cases hm; norm_num)
    | other => exact Or.inl (by cases hm; norm_num)

/-- Witness for `C10_amended` at concrete non-default cap arguments. -/
theorem C10_amended_witness :
    eff_max_requests (.str "not a number") = .str "not a number" ∧
    eff_max_tweets (.str "not a number") = .int (10 ^ 15) :=
  ⟨(C10_amended.2.1 (.str "not a number") (by intro h; cases h)),
   (C10_amended.2.2.2.1 (.str "not a number") (fun n h => by cases h))⟩

/-! ## Dictionary lemmas -/

theorem lookup_setKey_self (fs : List (String × Json)) (k : String)
    (v : Json) : lookupKey (setKey fs k v) k = some v := by
  induction fs with
  | nil => simp [setKey, lookupKey]
  | cons kv fs ih =>
      obtain ⟨k0, v0⟩ := kv
      by_cases h : k0 = k
      · simp [setKey, h, lookupKey]
      · simp [setKey, h, lookupKey, ih]

theorem lookup_setKey_ne (fs : List (String × Json)) (k : String) (v : Json)
    (k2 : String) (h : k2 ≠ k) :
    lookupKey (setKey fs k v) k2 = lookupKey fs k2 := by
  induction fs with
  | nil =>
      simp only [setKey, lookupKey]
      rw [if_neg (fun hh => h hh.symm)]
  | cons kv fs ih =>
      obtain ⟨k0, v0⟩ := kv
      by_cases h0 : k0 = k
      · subst h0
        simp only [setKey, if_pos rfl, lookupKey]
        rw [if_neg (fun hh => h hh.symm), if_neg (fun hh => h hh.symm)]
      · simp only [setKey, if_neg h0, lookupKey]
        by_cases h2 : k0 = k2
        · rw [if_pos h2, if_pos h2]
        · rw [if_neg h2, if_neg h2]
          exact ih

theorem setKey_self (fs : List (String × Json)) (k : String) (v : Json)
    (h : lookupKey fs k = some v) : setKey fs k v = fs := by
  induction fs with
  | nil => simp [lookupKey] at h
  | cons kv fs ih =>
      obtain ⟨k0, v0⟩ := kv
      by_cases h0 : k0 = k
      · subst h0
        simp [lookupKey] at h
        simp [setKey, h]
      · simp [lookupKey, h0] at h
        simp [setKey, h0, ih h]

theorem mem_setKey (fs : List (String × Json)) (k : String) (v : Json)
    (kv : String × Json) (h : kv ∈ setKey fs k v) :
    kv ∈ fs ∨ kv = (k, v) := by
  induction fs with
  | nil =>
      simp [setKey] at h
      exact Or.inr (by simp [h])
  | cons kv0 fs ih =>
      obtain ⟨k0, v0⟩ := kv0
      by_cases h0 : k0 = k
      · simp [setKey, h0] at h
        rcases h with h | h
        · exact Or.inr (by simp [h, h0])
        · exact Or.inl (List.mem_cons_of_mem _ h)
      · simp [setKey, h0] at h
        rcases h with h | h
        · exact Or.inl (by simp [h])
        · rcases ih h with h2 | h2
          · exact Or.inl (List.mem_cons_of_mem _ h2)
          · exact Or.inr h2

/-! ## Frame lemmas for the cross-reference blocks -/

theorem step_attach_frame (tbl : List (String × Json)) (sk dk : String)
    (fs gs : List (String × Json)) (h : step_attach tbl sk dk fs = some gs)
    (k : String) (hk : k ≠ dk) : lookupKey gs k = lookupKey fs k := by
  unfold step_attach at h
  split at h
  · cases h; rfl
  · next v hsk =>
      cases hu : tbl_get_py tbl v with
      | none => simp [hu] at h
      | some u =>
          simp [hu] at h
          subst h
          exact lookup_setKey_ne fs dk u k hk

theorem step_media_frame (media : List (String × Json))
    (fs gs : List (String × Json)) (h : step_media media fs = some gs)
    (k : String) (hk : k ≠ "media") : lookupKey gs k = lookupKey fs k := by
  unfold step_media at h
  split at h
  · cases h; rfl
  · next v hsk =>
      cases hit : py_iter v with
      | none => simp [hit] at h
      | some ks =>
          cases hms : omapM (tbl_get_py media) ks with
          | none => simp [hit, hms] at h
          | some ms =>
              simp [hit, hms] at h
              subst h
              exact lookup_setKey_ne fs "media" _ k hk

theorem step_poll_frame (polls : List (String × Json))
    (fs gs : List (String × Json)) (h : step_poll polls fs = some gs)
    (k : String) (hk : k ≠ "poll") : lookupKey gs k = lookupKey fs k := by
  unfold step_poll at h
  split at h
  · cases h; rfl
  · next v hsk =>
      cases hl : py_last v with
      | none => simp [hl] at h
      | some pid =>
          cases hp : tbl_get_py polls pid with
          | none => simp [hl, hp] at h
          | some p =>
              simp [hl, hp] at h
              subst h
              exact lookup_setKey_ne fs "poll" _ k hk

theorem step_geo_frame (places : List (String × Json))
    (fs gs : List (String × Json)) (h : step_geo places fs = some gs)
    (k : String) (hk : k ≠ "geo") : lookupKey gs k = lookupKey fs k := by
  unfold step_geo at h
  split at h
  · cases h; rfl
  · next g hsk =>
      cases hc : py_contains g "place_id" with
      | none => simp [hc] at h
      | some c =>
          cases c with
          | false =>
              simp [hc] at h
              subst h
              rfl
          | true =>
              simp only [hc, Option.bind_some, if_true] at h
              cases g with
              | obj gf =>
                  cases hpid : lookupKey gf "place_id" with
                  | none => simp [hpid] at h
                  | some pid =>
                      cases hpl : tbl_get_py places pid with
                      | none => simp [hpid, hpl] at h
                      | some pl =>
                          cases pl with
                          | obj pf =>
                              simp [hpid, hpl] at h
                              subst h
                              exact lookup_setKey_ne fs "geo" _ k hk
                          | null => simp [hpid, hpl] at h
                          | bool b => simp [hpid, hpl] at h
                          | int n => simp [hpid, hpl] at h
                          | str s => simp [hpid, hpl] at h
                          | arr xs => simp [hpid, hpl] at h
              | null => simp at h
              | bool b => simp at h
              | int n => simp at h
              | str s => simp at h
              | arr xs => simp at h

theorem step_merge_frame (tbl : List (String × Json)) (key field : String)
    (fs gs : List (String × Json))
    (h : step_merge_list tbl key field fs = some gs)
    (k : String) (hk : k ≠ key) : lookupKey gs k = lookupKey fs k := by
  unfold step_merge_list at h
  split at h
  · cases h; rfl
  · next v hsk =>
      cases hit : py_iter v with
      | none => simp [hit] at h
      | some ms =>
          cases hms : omapM (merge_one tbl field) ms with
          | none => simp [hit, hms] at h
          | some ms2 =>
              simp [hit, hms] at h
              subst h
              exact lookup_setKey_ne fs key _ k hk

/-! ## Structural lemmas about `expand_payload` -/

theorem expand_fields_lookup (t : Tables) :
    ∀ (fs gs : List (String × Json)), expand_fields t fs = some gs →
      ∀ (k : String) (v : Json), lookupKey fs k = some v →
        ∃ w, expand_payload t v = some w ∧ lookupKey gs k = some w := by
  intro fs
  induction fs with
  | nil => intro gs _ k v hv; simp [lookupKey] at hv
  | cons kv fs ih =>
      obtain ⟨k0, v0⟩ := kv
      intro gs hgs k v hv
      rw [expand_fields] at hgs
      cases hw : expand_payload t v0 with
      | none => rw [hw] at hgs; cases hgs
      | some w0 =>
          rw [hw] at hgs
          cases hrest : expand_fields t fs with
          | none => simp [hrest] at hgs
          | some gs0 =>
              simp [hrest] at hgs
              subst hgs
              by_cases hk : k0 = k
              · subst hk
                simp only [lookupKey, if_pos rfl] at hv ⊢
                cases hv
                exact ⟨w0, hw, rfl⟩
              · simp only [lookupKey, if_neg hk] at hv ⊢
                exact ih gs0 hrest k v hv

theorem expand_strs (t : Tables) (ks : List String) :
    expand_payload t (.arr (ks.map Json.str)) =
      some (.arr (ks.map Json.str)) := by
  rw [expand_payload]
  have : expand_list t (ks.map Json.str) = some (ks.map Json.str) := by
    induction ks with
    | nil => simp [expand_list]
    | cons k ks ih => simp [expand_list, expand_payload, ih]
  simp [this]

theorem omapM_tbl_strs (media : List (String × Json)) (ks : List String) :
    omapM (tbl_get_py media) (ks.map Json.str) =
      some (ks.map (fun k => tbl_get media k)) := by
  induction ks with
  | nil => simp [omapM]
  | cons k ks ih => simp [omapM, tbl_get_py, ih]

/-! ## C7 -/

/-- C7 counterexample: `expand_payload` mutates the dict it is given: after
the call the caller's item object holds the expanded value, which differs
from the original item, so the projection is not free of effects on its
input. -/
theorem C7_counterexample :
    payload_after c7tables c7item = some c7expanded ∧
    c7expanded ≠ c7item ∧
    expand_payload c7tables c7item = some c7expanded := by
  refine ⟨by decide, by decide, by decide⟩

mutual

theorem payload_after_eq_expand (t : Tables) :
    (p : Json) → payload_after t p = expand_payload t p
  | .null => rfl
  | .bool _ => rfl
  | .int _ => rfl
  | .str _ => rfl
  | .arr xs => by
      rw [payload_after, expand_payload, payload_after_list_eq_expand t xs]
  | .obj _ => rfl

theorem payload_after_list_eq_expand (t : Tables) :
    (xs : List Json) → payload_after_list t xs = expand_list t xs
  | [] => rfl
  | x :: xs => by
      rw [payload_after_list, expand_list, payload_after_eq_expand t x,
        payload_after_list_eq_expand t xs]

end

/-- C7, amended: the result of `expand_payload` is a pure function of the
item and the side tables, but the call mutates a dict (or the dict elements
of a list) passed to it in place: after a successful call the argument
object holds exactly the returned value (`payload_after` = the returned
value), rather than its original value. -/
theorem C7_amended (t : Tables) (p : Json) :
    payload_after t p = expand_payload t p :=
  payload_after_eq_expand t p

/-! ## C8 counterexample -/

/-- C8 counterexample: with side tables whose every entry is itself a fixed
point of the projection (flat tables: expanding `c8u1`/`c8u2` returns them
unchanged, and they contain no reference keys), the projection is still not
idempotent: two users sharing the username `A` make the mention re-merge
unstable. -/
theorem C8_counterexample :
    expand_payload c8tables c8item = some c8once ∧
    expand_payload c8tables c8once = some c8twice ∧
    c8twice ≠ c8once ∧
    expand_payload c8tables c8u1 = some c8u1 ∧
    expand_payload c8tables c8u2 = some c8u2 := by
  refine ⟨by decide, by decide, by decide, by decide, by decide⟩

/-! ## C9 -/

/-- C9, confirmed: for an item whose `media_keys` is a list of string keys,
a successful projection binds `media` to the list of one table lookup per
key, in the same order and of the same length, and any key missing from the
media side-table resolves to the empty object rather than raising. -/
theorem apply_triggers_comps (t : Tables) (fs gs : List (String × Json))
    (h : apply_triggers t fs = some gs) :
    ∃ fsa fsb fsc fsd fse fsf fsg,
      step_attach t.users "author_id" "author" fs = some fsa ∧
      step_attach t.users "in_reply_to_user_id" "in_reply_to_user" fsa =
        some fsb ∧
      step_media t.media fsb = some fsc ∧
      step_poll t.polls fsc = some fsd ∧
      step_geo t.places fsd = some fse ∧
      step_merge_list t.users "mentions" "username" fse = some fsf ∧
      step_merge_list t.tweets "referenced_tweets" "id" fsf = some fsg ∧
      step_attach t.tweets "pinned_tweet_id" "pinned_tweet" fsg = some gs := by
  unfold apply_triggers at h
  simp only [Option.bind_eq_bind, Option.bind_eq_some] at h
  obtain ⟨fsa, ha1, fsb, ha2, fsc, hm3, fsd, hp4, fse, hg5, fsf, hm6, fsg,
    hm7, h8⟩ := h
  exact ⟨fsa, fsb, fsc, fsd, fse, fsf, fsg, ha1, ha2, hm3, hp4, hg5, hm6,
    hm7, h8⟩

/-- C9, confirmed: for an item whose `media_keys` is a list of string keys,
a successful projection binds `media` to the list of one table lookup per
key, in the same order and of the same length, and any key missing from the
media side-table resolves to the empty object rather than raising. -/
theorem C9_theorem (t : Tables) (item : List (String × Json))
    (ks : List String) (r : Json)
    (hmk : lookupKey item "media_keys" = some (.arr (ks.map Json.str)))
    (hex : expand_payload t (.obj item) = some r) :
    ∃ gs, r = .obj gs ∧
      lookupKey gs "media" =
        some (.arr (ks.map (fun k => tbl_get t.media k))) ∧
      (ks.map (fun k => tbl_get t.media k)).length = ks.length ∧
      (∀ k ∈ ks, lookupKey t.media k = none → tbl_get t.media k = .obj []) := by
  rw [expand_payload] at hex
  simp only [Option.bind_eq_bind, Option.bind_eq_some] at hex
  obtain ⟨fs2, h2, gs, h3, hr⟩ := hex
  simp only [Option.pure_def, Option.some.injEq] at hr
  subst hr
  refine ⟨gs, rfl, ?_, by simp, ?_⟩
  · obtain ⟨w, hw, hl2⟩ :=
      expand_fields_lookup t item fs2 h2 "media_keys" _ hmk
    rw [expand_strs t ks] at hw
    cases hw
    obtain ⟨fsa, fsb, fsc, fsd, fse, fsf, fsg, ha1, ha2, hm3, hp4, hg5, hm6,
      hm7, h8⟩ := apply_triggers_comps t fs2 gs h3
    have hlb : lookupKey fsb "media_keys" =
        some (.arr (ks.map Json.str)) := by
      rw [step_attach_frame _ _ _ _ _ ha2 _ (by decide),
        step_attach_frame _ _ _ _ _ ha1 _ (by decide), hl2]
    have hlc : lookupKey fsc "media" =
        some (.arr (ks.map (fun k => tbl_get t.media k))) := by
      unfold step_media at hm3
      rw [hlb] at hm3
      simp only [py_iter, Option.bind_eq_bind, Option.some_bind,
        omapM_tbl_strs, Option.pure_def, Option.some.injEq] at hm3
      subst hm3
      exact lookup_setKey_self _ _ _
    rw [step_attach_frame _ _ _ _ _ h8 _ (by decide),
      step_merge_frame _ _ _ _ _ hm7 _ (by decide),
      step_merge_frame _ _ _ _ _ hm6 _ (by decide),
      step_geo_frame _ _ _ hg5 _ (by decide),
      step_poll_frame _ _ _ hp4 _ (by decide), hlc]
  · intro k _ hnone
    simp [tbl_get, hnone]

/-- Witness for `C9_theorem`: `media_keys ["m1","m2"]` with a side table
containing only `m1` resolves to `[resolved_m1, {}]` in order. -/
theorem C9_theorem_witness :
    ∃ gs, c9expanded = Json.obj gs ∧
      lookupKey gs "media" =
        some (.arr ((["m1", "m2"] : List String).map
          (fun k => tbl_get c9tables.media k))) ∧
      ((["m1", "m2"] : List String).map
        (fun k => tbl_get c9tables.media k)).length =
        (["m1", "m2"] : List String).length ∧
      (∀ k ∈ (["m1", "m2"] : List String), lookupKey c9tables.media k = none →
        tbl_get c9tables.media k = .obj []) :=
  C9_theorem c9tables c9item ["m1", "m2"] c9expanded (by decide) (by decide)

/-! ## Merge and lookup lemmas for the idempotence analysis -/

theorem lookup_mem (fs : List (String × Json)) (k : String) (v : Json)
    (h : lookupKey fs k = some v) : (k, v) ∈ fs := by
  induction fs with
  | nil => simp [lookupKey] at h
  | cons kv fs ih =>
      obtain ⟨k0, v0⟩ := kv
      by_cases h0 : k0 = k
      · subst h0
        simp [lookupKey] at h
        simp [h]
      · simp [lookupKey, h0] at h
        exact List.mem_cons_of_mem _ (ih h)

theorem lookup_none_of_keys (b : List (String × Json)) (k : String)
    (h : (b.map Prod.fst).contains k = false) : lookupKey b k = none := by
  induction b with
  | nil => rfl
  | cons kv b ih =>
      obtain ⟨k0, v0⟩ := kv
      rw [List.map_cons, List.contains_cons, Bool.or_eq_false_iff] at h
      have h1 : ¬ k0 = k := by
        intro hh
        rw [hh] at h
        simp at h
      rw [lookupKey, if_neg h1]
      exact ih h.2

theorem merge_nil (a : List (String × Json)) : merge_dicts a [] = a := rfl

theorem merge_cons (a : List (String × Json)) (k : String) (v : Json)
    (b : List (String × Json)) :
    merge_dicts a ((k, v) :: b) = merge_dicts (setKey a k v) b := rfl

theorem lookup_merge_of_none (a b : List (String × Json)) (k : String)
    (h : lookupKey b k = none) :
    lookupKey (merge_dicts a b) k = lookupKey a k := by
  induction b generalizing a with
  | nil => rfl
  | cons kv b ih =>
      obtain ⟨k0, v0⟩ := kv
      rw [merge_cons]
      by_cases h0 : k0 = k
      · simp [lookupKey, h0] at h
      · simp only [lookupKey, if_neg h0] at h
        rw [ih _ h, lookup_setKey_ne _ _ _ _ (fun hh => h0 hh.symm)]

theorem ref_free_fields_cons (k : String) (v : Json)
    (b : List (String × Json)) (h : ref_free_fields ((k, v) :: b) = true) :
    trigger_keys.contains k = false ∧ (b.map Prod.fst).contains k = false ∧
    ref_free v = true ∧ ref_free_fields b = true := by
  rw [ref_free_fields] at h
  simp only [Bool.and_eq_true, Bool.not_eq_true'] at h
  exact ⟨h.1.1.1, h.1.1.2, h.1.2, h.2⟩

/-- `ref_free_fields` in particular makes the keys of `b` pairwise
distinct, so a bound key of `b` survives into any merge. -/
theorem lookup_merge_of_some (b : List (String × Json)) :
    ∀ (a : List (String × Json)) (k : String) (v : Json),
      ref_free_fields b = true → lookupKey b k = some v →
      lookupKey (merge_dicts a b) k = some v := by
  induction b with
  | nil => intro a k v _ h; simp [lookupKey] at h
  | cons kv b ih =>
      obtain ⟨k0, v0⟩ := kv
      intro a k v hb h
      obtain ⟨ht, hk, hv, hrest⟩ := ref_free_fields_cons k0 v0 b hb
      rw [merge_cons]
      by_cases h0 : k0 = k
      · subst h0
        simp only [lookupKey, if_pos rfl] at h
        cases h
        rw [lookup_merge_of_none _ _ _ (lookup_none_of_keys b k0 hk)]
        exact lookup_setKey_self a k0 v0
      · simp only [lookupKey, if_neg h0] at h
        exact ih _ _ _ hrest h

theorem merge_self (c b : List (String × Json))
    (h : ∀ kv ∈ b, lookupKey c kv.1 = some kv.2) : merge_dicts c b = c := by
  induction b with
  | nil => rfl
  | cons kv b ih =>
      obtain ⟨k0, v0⟩ := kv
      rw [merge_cons, setKey_self c k0 v0 (h (k0, v0) (by simp))]
      exact ih (fun kv hkv => h kv (List.mem_cons_of_mem _ hkv))

theorem merge_absorb (b : List (String × Json)) :
    ∀ (a : List (String × Json)), ref_free_fields b = true →
      ∀ kv ∈ b, lookupKey (merge_dicts a b) kv.1 = some kv.2 := by
  induction b with
  | nil => simp
  | cons kv0 b ih =>
      obtain ⟨k0, v0⟩ := kv0
      intro a hb kv hkv
      obtain ⟨ht, hk, hv, hrest⟩ := ref_free_fields_cons k0 v0 b hb
      rcases List.mem_cons.mp hkv with h | h
      · subst h
        rw [merge_cons,
          lookup_merge_of_none _ _ _ (lookup_none_of_keys b k0 hk)]
        exact lookup_setKey_self a k0 v0
      · rw [merge_cons]
        exact ih _ hrest kv h

theorem merge_idem (a b : List (String × Json))
    (hb : ref_free_fields b = true) :
    merge_dicts (merge_dicts a b) b = merge_dicts a b :=
  merge_self _ _ (merge_absorb b a hb)

theorem mem_merge (a b : List (String × Json)) (kv : String × Json)
    (h : kv ∈ merge_dicts a b) : kv ∈ a ∨ kv ∈ b := by
  induction b generalizing a with
  | nil => exact Or.inl h
  | cons kv0 b ih =>
      obtain ⟨k0, v0⟩ := kv0
      rw [merge_cons] at h
      rcases ih _ h with h2 | h2
      · rcases mem_setKey a k0 v0 kv h2 with h3 | h3
        · exact Or.inl h3
        · exact Or.inr (by simp [h3])
      · exact Or.inr (List.mem_cons_of_mem _ h2)

/-! ## `omapM` and `expand` structural lemmas -/

theorem omapM_members (f : Json → Option Json) :
    ∀ (xs ys : List Json), omapM f xs = some ys →
      ∀ y ∈ ys, ∃ x ∈ xs, f x = some y := by
  intro xs
  induction xs with
  | nil =>
      intro ys h y hy
      simp [omapM] at h
      subst h
      simp at hy
  | cons x xs ih =>
      intro ys h y hy
      rw [omapM] at h
      cases hx : f x with
      | none => rw [hx] at h; cases h
      | some y0 =>
          rw [hx] at h
          cases hrest : omapM f xs with
          | none => simp [hrest] at h
          | some ys0 =>
              simp [hrest] at h
              subst h
              rcases List.mem_cons.mp hy with h2 | h2
              · exact ⟨x, by simp, by rw [hx, h2]⟩
              · obtain ⟨x2, hx2, hfx2⟩ := ih ys0 hrest y h2
                exact ⟨x2, List.mem_cons_of_mem _ hx2, hfx2⟩

theorem omapM_id (f : Json → Option Json) :
    ∀ (xs : List Json), (∀ x ∈ xs, f x = some x) → omapM f xs = some xs := by
  intro xs
  induction xs with
  | nil => intro _; rfl
  | cons x xs ih =>
      intro h
      rw [omapM, h x (by simp), ih (fun x2 hx2 => h x2 (by simp [hx2]))]
      rfl

theorem expand_list_members (t : Tables) :
    ∀ (xs ys : List Json), expand_list t xs = some ys →
      ∀ y ∈ ys, ∃ x ∈ xs, expand_payload t x = some y := by
  intro xs
  induction xs with
  | nil =>
      intro ys h y hy
      rw [expand_list] at h
      cases h
      simp at hy
  | cons x xs ih =>
      intro ys h y hy
      rw [expand_list] at h
      cases hx : expand_payload t x with
      | none => rw [hx] at h; cases h
      | some y0 =>
          rw [hx] at h
          cases hrest : expand_list t xs with
          | none => simp [hrest] at h
          | some ys0 =>
              simp [hrest] at h
              subst h
              rcases List.mem_cons.mp hy with h2 | h2
              · exact ⟨x, by simp, by rw [hx, h2]⟩
              · obtain ⟨x2, hx2, hfx2⟩ := ih ys0 hrest y h2
                exact ⟨x2, List.mem_cons_of_mem _ hx2, hfx2⟩

theorem expand_fields_members (t : Tables) :
    ∀ (fs gs : List (String × Json)), expand_fields t fs = some gs →
      ∀ kv ∈ gs, ∃ kv0 ∈ fs, expand_payload t kv0.2 = some kv.2 := by
  intro fs
  induction fs with
  | nil =>
      intro gs h kv hkv
      rw [expand_fields] at h
      cases h
      simp at hkv
  | cons kv0 fs ih =>
      obtain ⟨k0, v0⟩ := kv0
      intro gs h kv hkv
      rw [expand_fields] at h
      cases hx : expand_payload t v0 with
      | none => rw [hx] at h; cases h
      | some w0 =>
          rw [hx] at h
          cases hrest : expand_fields t fs with
          | none => simp [hrest] at h
          | some gs0 =>
              simp [hrest] at h
              subst h
              rcases List.mem_cons.mp hkv with h2 | h2
              · exact ⟨(k0, v0), by simp, by rw [hx, h2]⟩
              · obtain ⟨kv2, hkv2, hfkv2⟩ := ih gs0 hrest kv h2
                exact ⟨kv2, List.mem_cons_of_mem _ hkv2, hfkv2⟩

theorem expand_list_id (t : Tables) :
    ∀ (xs : List Json), (∀ x ∈ xs, expand_payload t x = some x) →
      expand_list t xs = some xs := by
  intro xs
  induction xs with
  | nil => intro _; rfl
  | cons x xs ih =>
      intro h
      rw [expand_list, h x (by simp),
        ih (fun x2 hx2 => h x2 (by simp [hx2]))]
      rfl

theorem expand_fields_id (t : Tables) :
    ∀ (fs : List (String × Json)),
      (∀ kv ∈ fs, expand_payload t kv.2 = some kv.2) →
      expand_fields t fs = some fs := by
  intro fs
  induction fs with
  | nil => intro _; rfl
  | cons kv fs ih =>
      obtain ⟨k0, v0⟩ := kv
      intro h
      rw [expand_fields, h (k0, v0) (by simp),
        ih (fun kv2 hkv2 => h kv2 (by simp [hkv2]))]
      rfl

/-! ## Reference-free values are projection normal forms -/

theorem ref_free_fields_mem (fs : List (String × Json))
    (h : ref_free_fields fs = true) :
    ∀ kv ∈ fs, ref_free kv.2 = true := by
  induction fs with
  | nil => simp
  | cons kv0 fs ih =>
      obtain ⟨k0, v0⟩ := kv0
      obtain ⟨_, _, hv, hrest⟩ := ref_free_fields_cons k0 v0 fs h
      intro kv hkv
      rcases List.mem_cons.mp hkv with h2 | h2
      · subst h2; exact hv
      · exact ih hrest kv h2

theorem lookup_trigger_none (fs : List (String × Json)) (k : String)
    (h : ref_free_fields fs = true) (hk : trigger_keys.contains k = true) :
    lookupKey fs k = none := by
  induction fs with
  | nil => rfl
  | cons kv0 fs ih =>
      obtain ⟨k0, v0⟩ := kv0
      obtain ⟨ht, _, _, hrest⟩ := ref_free_fields_cons k0 v0 fs h
      have h1 : ¬ k0 = k := by
        intro hh
        rw [hh] at ht
        rw [ht] at hk
        cases hk
      rw [lookupKey, if_neg h1]
      exact ih hrest

theorem settledA_of_eq (tbl : List (String × Json)) (sk dk : String)
    (fs gs : List (String × Json))
    (h1 : lookupKey gs sk = lookupKey fs sk)
    (h2 : lookupKey gs dk = lookupKey fs dk)
    (h : settledA tbl sk dk fs) : settledA tbl sk dk gs := by
  intro v hv
  rw [h1] at hv
  obtain ⟨u, hu, hdk⟩ := h v hv
  exact ⟨u, hu, by rw [h2, hdk]⟩

theorem settledM_of_eq (media : List (String × Json))
    (fs gs : List (String × Json))
    (h1 : lookupKey gs "media_keys" = lookupKey fs "media_keys")
    (h2 : lookupKey gs "media" = lookupKey fs "media")
    (h : settledM media fs) : settledM media gs := by
  intro v hv
  rw [h1] at hv
  obtain ⟨ks, ms, hks, hms, hl⟩ := h v hv
  exact ⟨ks, ms, hks, hms, by rw [h2, hl]⟩

theorem settledP_of_eq (polls : List (String × Json))
    (fs gs : List (String × Json))
    (h1 : lookupKey gs "poll_ids" = lookupKey fs "poll_ids")
    (h2 : lookupKey gs "poll" = lookupKey fs "poll")
    (h : settledP polls fs) : settledP polls gs := by
  intro v hv
  rw [h1] at hv
  obtain ⟨pid, p, hpid, hp, hl⟩ := h v hv
  exact ⟨pid, p, hpid, hp, by rw [h2, hl]⟩

theorem settledG_of_eq (places : List (String × Json))
    (fs gs : List (String × Json))
    (h1 : lookupKey gs "geo" = lookupKey fs "geo")
    (h : settledG places fs) : settledG places gs := by
  intro g hg
  rw [h1] at hg
  exact h g hg

theorem settledL_of_eq (tbl : List (String × Json)) (key field : String)
    (fs gs : List (String × Json))
    (h1 : lookupKey gs key = lookupKey fs key)
    (h : settledL tbl key field fs) : settledL tbl key field gs := by
  intro v hv
  rw [h1] at hv
  exact h v hv

theorem settled_all_of_no_triggers (t : Tables) (fs : List (String × Json))
    (h : ∀ k, trigger_keys.contains k = true → lookupKey fs k = none) :
    settled_all t fs := by
  refine ⟨?_, ?_, ?_, ?_, ?_, ?_, ?_, ?_⟩
  · intro v hv; rw [h "author_id" (by decide)] at hv; cases hv
  · intro v hv; rw [h "in_reply_to_user_id" (by decide)] at hv; cases hv
  · intro v hv; rw [h "media_keys" (by decide)] at hv; cases hv
  · intro v hv; rw [h "poll_ids" (by decide)] at hv; cases hv
  · intro g hg; rw [h "geo" (by decide)] at hg; cases hg
  · intro v hv; rw [h "mentions" (by decide)] at hv; cases hv
  · intro v hv; rw [h "referenced_tweets" (by decide)] at hv; cases hv
  · intro v hv; rw [h "pinned_tweet_id" (by decide)] at hv; cases hv

mutual

theorem good_of_ref_free (t : Tables) :
    (j : Json) → ref_free j = true → Good t j
  | .null => fun h => by simp [ref_free] at h
  | .bool b => fun _ => Good.bool b
  | .int n => fun _ => Good.int n
  | .str s => fun _ => Good.str s
  | .arr xs => fun h =>
      Good.arr xs (good_of_ref_free_list t xs (by rw [ref_free] at h; exact h))
  | .obj fs => fun h => by
      rw [ref_free] at h
      exact Good.obj fs (good_of_ref_free_fields t fs h)
        (settled_all_of_no_triggers t fs
          (fun k hk => lookup_trigger_none fs k h hk))

theorem good_of_ref_free_list (t : Tables) :
    (xs : List Json) → ref_free_list xs = true → ∀ x ∈ xs, Good t x
  | [] => fun _ x hx => absurd hx (by simp)
  | x0 :: xs => fun h x hx => by
      rw [ref_free_list, Bool.and_eq_true] at h
      rcases List.mem_cons.mp hx with h2 | h2
      · subst h2; exact good_of_ref_free t x h.1
      · exact good_of_ref_free_list t xs h.2 x h2

theorem good_of_ref_free_fields (t : Tables) :
    (fs : List (String × Json)) → ref_free_fields fs = true →
      ∀ kv ∈ fs, Good t kv.2
  | [] => fun _ kv hkv => absurd hkv (by simp)
  | (k0, v0) :: fs => fun h kv hkv => by
      obtain ⟨_, _, hv, hrest⟩ := ref_free_fields_cons k0 v0 fs h
      rcases List.mem_cons.mp hkv with h2 | h2
      · subst h2; exact good_of_ref_free t v0 hv
      · exact good_of_ref_free_fields t fs hrest kv h2

end

theorem good_empty (t : Tables) : Good t (.obj []) :=
  good_of_ref_free t (.obj []) (by decide)

theorem tbl_get_py_good (t : Tables) (tbl : List (String × Json))
    (htbl : ∀ kv ∈ tbl, ref_free kv.2 = true) (v u : Json)
    (h : tbl_get_py tbl v = some u) : Good t u := by
  cases v with
  | str s =>
      cases h
      unfold tbl_get
      cases hl : lookupKey tbl s with
      | none => exact good_empty t
      | some w =>
          exact good_of_ref_free t w (htbl (s, w) (lookup_mem tbl s w hl))
  | arr xs => cases h
  | obj fs => cases h
  | null => cases h; exact good_empty t
  | bool b => cases h; exact good_empty t
  | int n => cases h; exact good_empty t

/-- Merging a reference-free object into a projection normal form yields a
projection normal form: the merge changes no binding at any trigger key. -/
theorem good_merge (t : Tables) (mf pf : List (String × Json))
    (hm : Good t (.obj mf)) (hp : ref_free_fields pf = true) :
    Good t (.obj (merge_dicts mf pf)) := by
  cases hm with
  | obj fs0 hvals hsettled =>
      have heq : ∀ k, trigger_keys.contains k = true →
          lookupKey (merge_dicts mf pf) k = lookupKey mf k := by
        intro k hk
        exact lookup_merge_of_none _ _ _ (lookup_trigger_none pf k hp hk)
      obtain ⟨s1, s2, s3, s4, s5, s6, s7, s8⟩ := hsettled
      refine Good.obj _ ?_ ?_
      · intro kv hkv
        rcases mem_merge mf pf kv hkv with h | h
        · exact hvals kv h
        · exact good_of_ref_free t kv.2 (ref_free_fields_mem pf hp kv h)
      · refine ⟨?_, ?_, ?_, ?_, ?_, ?_, ?_, ?_⟩
        · exact settledA_of_eq _ _ _ _ _ (heq _ (by decide))
            (heq _ (by decide)) s1
        · exact settledA_of_eq _ _ _ _ _ (heq _ (by decide))
            (heq _ (by decide)) s2
        · exact settledM_of_eq _ _ _ (heq _ (by decide))
            (heq _ (by decide)) s3
        · exact settledP_of_eq _ _ _ (heq _ (by decide))
            (heq _ (by decide)) s4
        · exact settledG_of_eq _ _ _ (heq _ (by decide)) s5
        · exact settledL_of_eq _ _ _ _ _ (heq _ (by decide)) s6
        · exact settledL_of_eq _ _ _ _ _ (heq _ (by decide)) s7
        · exact settledA_of_eq _ _ _ _ _ (heq _ (by decide))
            (heq _ (by decide)) s8

/-! ## A settled block is a no-op -/

theorem step_attach_settled (tbl : List (String × Json)) (sk dk : String)
    (fs : List (String × Json)) (h : settledA tbl sk dk fs) :
    step_attach tbl sk dk fs = some fs := by
  unfold step_attach
  cases hsk : lookupKey fs sk with
  | none => rfl
  | some v =>
      obtain ⟨u, hu, hdk⟩ := h v hsk
      simp [hu, setKey_self fs dk u hdk]

theorem step_media_settled (media : List (String × Json))
    (fs : List (String × Json)) (h : settledM media fs) :
    step_media media fs = some fs := by
  unfold step_media
  cases hsk : lookupKey fs "media_keys" with
  | none => rfl
  | some v =>
      obtain ⟨ks, ms, hks, hms, hl⟩ := h v hsk
      simp [hks, hms, setKey_self fs "media" _ hl]

theorem step_poll_settled (polls : List (String × Json))
    (fs : List (String × Json)) (h : settledP polls fs) :
    step_poll polls fs = some fs := by
  unfold step_poll
  cases hsk : lookupKey fs "poll_ids" with
  | none => rfl
  | some v =>
      obtain ⟨pid, p, hpid, hp, hl⟩ := h v hsk
      simp [hpid, hp, setKey_self fs "poll" _ hl]

theorem step_geo_settled (places : List (String × Json))
    (fs : List (String × Json)) (h : settledG places fs) :
    step_geo places fs = some fs := by
  unfold step_geo
  cases hsk : lookupKey fs "geo" with
  | none => rfl
  | some g =>
      obtain ⟨⟨c, hc⟩, himp⟩ := h g hsk
      cases c with
      | false => simp [hc]
      | true =>
          obtain ⟨gf, hgf, pid, hpid, pf, hpf, hmerge⟩ := himp hc
          subst hgf
          simp [hc, hpid, hpf, hmerge, setKey_self fs "geo" (.obj gf) hsk]

theorem step_merge_settled (tbl : List (String × Json)) (key field : String)
    (fs : List (String × Json)) (h : settledL tbl key field fs) :
    step_merge_list tbl key field fs = some fs := by
  unfold step_merge_list
  cases hsk : lookupKey fs key with
  | none => rfl
  | some v =>
      obtain ⟨xs, hv, hxs⟩ := h v hsk
      subst hv
      simp [py_iter, omapM_id _ xs hxs, setKey_self fs key (.arr xs) hsk]

theorem apply_triggers_settled (t : Tables) (fs : List (String × Json))
    (h : settled_all t fs) : apply_triggers t fs = some fs := by
  obtain ⟨s1, s2, s3, s4, s5, s6, s7, s8⟩ := h
  unfold apply_triggers
  simp [step_attach_settled _ _ _ _ s1, step_attach_settled _ _ _ _ s2,
    step_media_settled _ _ s3, step_poll_settled _ _ s4,
    step_geo_settled _ _ s5, step_merge_settled _ _ _ _ s6,
    step_merge_settled _ _ _ _ s7, step_attach_settled _ _ _ _ s8]

/-- A projection normal form is a fixed point of the projection. -/
theorem expand_of_good (t : Tables) (j : Json) (h : Good t j) :
    expand_payload t j = some j := by
  induction h with
  | bool b => rfl
  | int n => rfl
  | str s => rfl
  | arr xs hxs ih =>
      rw [expand_payload, expand_list_id t xs ih]
      rfl
  | obj fs hvals hsettled ih =>
      rw [expand_payload, expand_fields_id t fs ih]
      simp [apply_triggers_settled t fs hsettled]

/-! ## Each block establishes its own settledness -/

theorem tbl_get_py_obj_ref_free (tbl : List (String × Json))
    (htbl : ∀ kv ∈ tbl, ref_free kv.2 = true) (v : Json)
    (pf : List (String × Json)) (h : tbl_get_py tbl v = some (.obj pf)) :
    ref_free_fields pf = true := by
  cases v with
  | str s =>
      simp only [tbl_get_py, Option.some.injEq] at h
      unfold tbl_get at h
      cases hl : lookupKey tbl s with
      | none =>
          rw [hl] at h
          simp at h
          subst h
          rfl
      | some w =>
          rw [hl] at h
          simp at h
          have hw := htbl (s, w) (lookup_mem tbl s w hl)
          rw [h] at hw
          rw [ref_free] at hw
          exact hw
  | arr xs => cases h
  | obj fs => cases h
  | null =>
      simp only [tbl_get_py, Option.some.injEq] at h
      injection h with h2
      subst h2
      rfl
  | bool b =>
      simp only [tbl_get_py, Option.some.injEq] at h
      injection h with h2
      subst h2
      rfl
  | int n =>
      simp only [tbl_get_py, Option.some.injEq] at h
      injection h with h2
      subst h2
      rfl

theorem tbl_get_py_cases (tbl : List (String × Json)) (v u : Json)
    (h : tbl_get_py tbl v = some u) :
    u = .obj [] ∨ ∃ k, (k, u) ∈ tbl := by
  cases v with
  | str s =>
      cases h
      unfold tbl_get
      cases hl : lookupKey tbl s with
      | none => exact Or.inl rfl
      | some w => exact Or.inr ⟨s, lookup_mem tbl s w hl⟩
  | arr xs => cases h
  | obj fs => cases h
  | null => cases h; exact Or.inl rfl
  | bool b => cases h; exact Or.inl rfl
  | int n => cases h; exact Or.inl rfl

theorem py_iter_good (t : Tables) (v : Json) (ms : List Json)
    (hv : Good t v) (h : py_iter v = some ms) : ∀ m ∈ ms, Good t m := by
  cases v with
  | arr xs =>
      cases h
      cases hv with
      | arr _ hxs => exact hxs
  | str s =>
      cases h
      intro m hm
      rw [List.mem_map] at hm
      obtain ⟨c, _, hc⟩ := hm
      rw [← hc]
      exact Good.str _
  | obj fs =>
      cases h
      intro m hm
      rw [List.mem_map] at hm
      obtain ⟨kv, _, hc⟩ := hm
      rw [← hc]
      exact Good.str _
  | null => cases h
  | bool b => cases h
  | int n => cases h

theorem step_attach_establish (t : Tables) (tbl : List (String × Json))
    (sk dk : String) (hne : sk ≠ dk)
    (htbl : ∀ kv ∈ tbl, ref_free kv.2 = true)
    (fs gs : List (String × Json))
    (hvals : ∀ kv ∈ fs, Good t kv.2)
    (h : step_attach tbl sk dk fs = some gs) :
    (∀ kv ∈ gs, Good t kv.2) ∧ settledA tbl sk dk gs := by
  unfold step_attach at h
  split at h
  · next hsk =>
      cases h
      refine ⟨hvals, ?_⟩
      intro v hv
      rw [hsk] at hv
      cases hv
  · next v hsk =>
      cases hu : tbl_get_py tbl v with
      | none => simp [hu] at h
      | some u =>
          simp [hu] at h
          subst h
          refine ⟨?_, ?_⟩
          · intro kv hkv
            rcases mem_setKey fs dk u kv hkv with h2 | h2
            · exact hvals kv h2
            · rw [h2]
              exact tbl_get_py_good t tbl htbl v u hu
          · intro v2 hv2
            rw [lookup_setKey_ne fs dk u sk hne, hsk] at hv2
            cases hv2
            exact ⟨u, hu, lookup_setKey_self fs dk u⟩

theorem step_media_establish (t : Tables)
    (htbl : ∀ kv ∈ t.media, ref_free kv.2 = true)
    (fs gs : List (String × Json))
    (hvals : ∀ kv ∈ fs, Good t kv.2)
    (h : step_media t.media fs = some gs) :
    (∀ kv ∈ gs, Good t kv.2) ∧ settledM t.media gs := by
  unfold step_media at h
  split at h
  · next hsk =>
      cases h
      exact ⟨hvals, fun v hv => by rw [hsk] at hv; cases hv⟩
  · next v hsk =>
      cases hit : py_iter v with
      | none => simp [hit] at h
      | some ks =>
          cases hms : omapM (tbl_get_py t.media) ks with
          | none => simp [hit, hms] at h
          | some ms =>
              simp [hit, hms] at h
              subst h
              refine ⟨?_, ?_⟩
              · intro kv hkv
                rcases mem_setKey fs "media" (.arr ms) kv hkv with h2 | h2
                · exact hvals kv h2
                · rw [h2]
                  refine Good.arr ms ?_
                  intro m hm
                  obtain ⟨x, _, hfx⟩ := omapM_members _ ks ms hms m hm
                  exact tbl_get_py_good t t.media htbl x m hfx
              · intro v2 hv2
                rw [lookup_setKey_ne fs "media" _ "media_keys" (by decide),
                  hsk] at hv2
                cases hv2
                exact ⟨ks, ms, hit, hms, lookup_setKey_self _ _ _⟩

theorem step_poll_establish (t : Tables)
    (htbl : ∀ kv ∈ t.polls, ref_free kv.2 = true)
    (fs gs : List (String × Json))
    (hvals : ∀ kv ∈ fs, Good t kv.2)
    (h : step_poll t.polls fs = some gs) :
    (∀ kv ∈ gs, Good t kv.2) ∧ settledP t.polls gs := by
  unfold step_poll at h
  split at h
  · next hsk =>
      cases h
      exact ⟨hvals, fun v hv => by rw [hsk] at hv; cases hv⟩
  · next v hsk =>
      cases hl : py_last v with
      | none => simp [hl] at h
      | some pid =>
          cases hp : tbl_get_py t.polls pid with
          | none => simp [hl, hp] at h
          | some p =>
              simp [hl, hp] at h
              subst h
              refine ⟨?_, ?_⟩
              · intro kv hkv
                rcases mem_setKey fs "poll" p kv hkv with h2 | h2
                · exact hvals kv h2
                · rw [h2]
                  exact tbl_get_py_good t t.polls htbl pid p hp
              · intro v2 hv2
                rw [lookup_setKey_ne fs "poll" _ "poll_ids" (by decide),
                  hsk] at hv2
                cases hv2
                exact ⟨pid, p, hl, hp, lookup_setKey_self _ _ _⟩

theorem step_geo_establish (t : Tables)
    (htbl : ∀ kv ∈ t.places, ref_free kv.2 = true)
    (fs gs : List (String × Json))
    (hvals : ∀ kv ∈ fs, Good t kv.2)
    (h : step_geo t.places fs = some gs) :
    (∀ kv ∈ gs, Good t kv.2) ∧ settledG t.places gs := by
  unfold step_geo at h
  split at h
  · next hsk =>
      cases h
      exact ⟨hvals, fun g hg => by rw [hsk] at hg; cases hg⟩
  · next g hsk =>
      cases hc : py_contains g "place_id" with
      | none => simp [hc] at h
      | some c =>
          cases c with
          | false =>
              simp [hc] at h
              subst h
              refine ⟨hvals, ?_⟩
              intro g2 hg2
              rw [hsk] at hg2
              cases hg2
              refine ⟨⟨false, hc⟩, ?_⟩
              intro htrue
              rw [hc] at htrue
              simp at htrue
          | true =>
              cases g with
              | obj gf =>
                  cases hpid : lookupKey gf "place_id" with
                  | none => simp [hc, hpid] at h
                  | some pid =>
                      cases hpl : tbl_get_py t.places pid with
                      | none => simp [hc, hpid, hpl] at h
                      | some pl =>
                          cases pl with
                          | obj pf =>
                              simp [hc, hpid, hpl] at h
                              subst h
                              have hgood_gf : Good t (.obj gf) :=
                                hvals _ (lookup_mem fs "geo" _ hsk)
                              have hpf_rf : ref_free_fields pf = true :=
                                tbl_get_py_obj_ref_free t.places htbl pid pf hpl
                              have hmpid : lookupKey (merge_dicts gf pf)
                                  "place_id" = some pid := by
                                rw [lookup_merge_of_none _ _ _
                                  (lookup_trigger_none pf _ hpf_rf (by decide))]
                                exact hpid
                              refine ⟨?_, ?_⟩
                              · intro kv hkv
                                rcases mem_setKey fs "geo" _ kv hkv with h2 | h2
                                · exact hvals kv h2
                                · rw [h2]
                                  exact good_merge t gf pf hgood_gf hpf_rf
                              · intro g2 hg2
                                rw [lookup_setKey_self] at hg2
                                cases hg2
                                refine ⟨⟨true, ?_⟩, ?_⟩
                                · rw [py_contains]
                                  simp [hmpid]
                                · intro _
                                  exact ⟨merge_dicts gf pf, rfl, pid, hmpid,
                                    pf, hpl, merge_idem gf pf hpf_rf⟩
                          | null => simp [hc, hpid, hpl] at h
                          | bool b => simp [hc, hpid, hpl] at h
                          | int n => simp [hc, hpid, hpl] at h
                          | str s => simp [hc, hpid, hpl] at h
                          | arr xs => simp [hc, hpid, hpl] at h
              | null => simp [hc] at h
              | bool b => simp [hc] at h
              | int n => simp [hc] at h
              | str s => simp [hc] at h
              | arr xs => simp [hc] at h

theorem merge_one_establish (t : Tables) (tbl : List (String × Json))
    (field : String)
    (htbl : ∀ kv ∈ tbl, ref_free kv.2 = true ∧ entry_ok tbl field kv.2 = true)
    (m m2 : Json) (hgood : Good t m) (h : merge_one tbl field m = some m2) :
    Good t m2 ∧ merge_one tbl field m2 = some m2 := by
  have htbl1 : ∀ kv ∈ tbl, ref_free kv.2 = true :=
    fun kv hkv => (htbl kv hkv).1
  cases m with
  | obj mf =>
      unfold merge_one at h
      cases hfv : lookupKey mf field with
      | none => simp [hfv] at h
      | some fv =>
          cases hu : tbl_get_py tbl fv with
          | none => simp [hfv, hu] at h
          | some u =>
              cases u with
              | obj uf =>
                  simp [hfv, hu] at h
                  subst h
                  have huf_rf : ref_free_fields uf = true :=
                    tbl_get_py_obj_ref_free tbl htbl1 fv uf hu
                  refine ⟨good_merge t mf uf hgood huf_rf, ?_⟩
                  cases huff : lookupKey uf field with
                  | none =>
                      have hmf2 : lookupKey (merge_dicts mf uf) field =
                          some fv := by
                        rw [lookup_merge_of_none _ _ _ huff]
                        exact hfv
                      simp [merge_one, hmf2, hu, merge_idem mf uf huf_rf]
                  | some w =>
                      have hmf2 : lookupKey (merge_dicts mf uf) field =
                          some w :=
                        lookup_merge_of_some uf mf field w huf_rf huff
                      have hmem : ∃ k, (k, Json.obj uf) ∈ tbl := by
                        rcases tbl_get_py_cases tbl fv _ hu with h2 | h2
                        · exfalso
                          cases h2
                          simp [lookupKey] at huff
                        · exact h2
                      obtain ⟨k0, hk0⟩ := hmem
                      have hok : entry_ok tbl field (Json.obj uf) = true :=
                        (htbl (k0, Json.obj uf) hk0).2
                      cases w with
                      | str s2 =>
                          simp [entry_ok, huff] at hok
                          simp [merge_one, hmf2, tbl_get_py, hok,
                            merge_idem mf uf huf_rf]
                      | null =>
                          simp [merge_one, hmf2, tbl_get_py, merge_nil]
                      | bool b =>
                          simp [merge_one, hmf2, tbl_get_py, merge_nil]
                      | int n =>
                          simp [merge_one, hmf2, tbl_get_py, merge_nil]
                      | arr xs => simp [entry_ok, huff] at hok
                      | obj fs2 => simp [entry_ok, huff] at hok
              | null => simp [hfv, hu] at h
              | bool b => simp [hfv, hu] at h
              | int n => simp [hfv, hu] at h
              | str s => simp [hfv, hu] at h
              | arr xs => simp [hfv, hu] at h
  | null => cases h
  | bool b => cases h
  | int n => cases h
  | str s => cases h
  | arr xs => cases h

theorem step_merge_establish (t : Tables) (tbl : List (String × Json))
    (key field : String)
    (htbl : ∀ kv ∈ tbl, ref_free kv.2 = true ∧ entry_ok tbl field kv.2 = true)
    (fs gs : List (String × Json))
    (hvals : ∀ kv ∈ fs, Good t kv.2)
    (h : step_merge_list tbl key field fs = some gs) :
    (∀ kv ∈ gs, Good t kv.2) ∧ settledL tbl key field gs := by
  unfold step_merge_list at h
  split at h
  · next hsk =>
      cases h
      exact ⟨hvals, fun v hv => by rw [hsk] at hv; cases hv⟩
  · next v hsk =>
      cases hit : py_iter v with
      | none => simp [hit] at h
      | some ms =>
          cases hms : omapM (merge_one tbl field) ms with
          | none => simp [hit, hms] at h
          | some ms2 =>
              simp [hit, hms] at h
              subst h
              have hval_v : Good t v := hvals _ (lookup_mem fs key v hsk)
              have helem : ∀ m ∈ ms, Good t m :=
                py_iter_good t v ms hval_v hit
              have hm2 : ∀ m2 ∈ ms2,
                  Good t m2 ∧ merge_one tbl field m2 = some m2 := by
                intro m2 hm2mem
                obtain ⟨m, hm, hmo⟩ := omapM_members _ ms ms2 hms m2 hm2mem
                exact merge_one_establish t tbl field htbl m m2
                  (helem m hm) hmo
              refine ⟨?_, ?_⟩
              · intro kv hkv
                rcases mem_setKey fs key (.arr ms2) kv hkv with h2 | h2
                · exact hvals kv h2
                · rw [h2]
                  exact Good.arr ms2 (fun m2 hmm => (hm2 m2 hmm).1)
              · intro v2 hv2
                rw [lookup_setKey_self] at hv2
                cases hv2
                exact ⟨ms2, rfl, fun m2 hmm => (hm2 m2 hmm).2⟩

/-! ## Size lemmas -/

theorem jsize_mem_list (x : Json) :
    ∀ (xs : List Json), x ∈ xs → jsize x < 1 + jsize_list xs := by
  intro xs
  induction xs with
  | nil => intro h; simp at h
  | cons x0 xs ih =>
      intro h
      rw [jsize_list]
      rcases List.mem_cons.mp h with h2 | h2
      · subst h2; omega
      · have := ih h2; omega

theorem jsize_mem_fields (kv : String × Json) :
    ∀ (fs : List (String × Json)), kv ∈ fs →
      jsize kv.2 < 1 + jsize_fields fs := by
  intro fs
  induction fs with
  | nil => intro h; simp at h
  | cons kv0 fs ih =>
      obtain ⟨k0, v0⟩ := kv0
      intro h
      rw [jsize_fields]
      rcases List.mem_cons.mp h with h2 | h2
      · subst h2; simp; omega
      · have := ih h2; omega


/-! ## The projection maps into normal forms, and is idempotent on flat
tables -/

theorem triggers_establish (t : Tables) (ht : FlatTables t)
    (fs gs : List (String × Json)) (hvals : ∀ kv ∈ fs, Good t kv.2)
    (h : apply_triggers t fs = some gs) :
    (∀ kv ∈ gs, Good t kv.2) ∧ settled_all t gs := by
  obtain ⟨fsa, fsb, fsc, fsd, fse, fsf, fsg, ha1, ha2, hm3, hp4, hg5, hm6,
    hm7, h8⟩ := apply_triggers_comps t fs gs h
  have husers_rf : ∀ kv ∈ t.users, ref_free kv.2 = true :=
    fun kv hkv => (ht.users_ok kv hkv).1
  have htweets_rf : ∀ kv ∈ t.tweets, ref_free kv.2 = true :=
    fun kv hkv => (ht.tweets_ok kv hkv).1
  obtain ⟨hva, s1a⟩ := step_attach_establish t t.users "author_id" "author"
    (by decide) husers_rf fs fsa hvals ha1
  obtain ⟨hvb, s2b⟩ := step_attach_establish t t.users "in_reply_to_user_id"
    "in_reply_to_user" (by decide) husers_rf fsa fsb hva ha2
  obtain ⟨hvc, s3c⟩ := step_media_establish t ht.media_ok fsb fsc hvb hm3
  obtain ⟨hvd, s4d⟩ := step_poll_establish t ht.polls_ok fsc fsd hvc hp4
  obtain ⟨hve, s5e⟩ := step_geo_establish t ht.places_ok fsd fse hvd hg5
  obtain ⟨hvf, s6f⟩ := step_merge_establish t t.users "mentions" "username"
    ht.users_ok fse fsf hve hm6
  obtain ⟨hvg, s7g⟩ := step_merge_establish t t.tweets "referenced_tweets"
    "id" ht.tweets_ok fsf fsg hvf hm7
  obtain ⟨hvh, s8h⟩ := step_attach_establish t t.tweets "pinned_tweet_id"
    "pinned_tweet" (by decide) htweets_rf fsg gs hvg h8
  have f2 : ∀ k, k ≠ "in_reply_to_user" →
      lookupKey fsb k = lookupKey fsa k :=
    fun k hk => step_attach_frame _ _ _ _ _ ha2 k hk
  have f3 : ∀ k, k ≠ "media" → lookupKey fsc k = lookupKey fsb k :=
    fun k hk => step_media_frame _ _ _ hm3 k hk
  have f4 : ∀ k, k ≠ "poll" → lookupKey fsd k = lookupKey fsc k :=
    fun k hk => step_poll_frame _ _ _ hp4 k hk
  have f5 : ∀ k, k ≠ "geo" → lookupKey fse k = lookupKey fsd k :=
    fun k hk => step_geo_frame _ _ _ hg5 k hk
  have f6 : ∀ k, k ≠ "mentions" → lookupKey fsf k = lookupKey fse k :=
    fun k hk => step_merge_frame _ _ _ _ _ hm6 k hk
  have f7 : ∀ k, k ≠ "referenced_tweets" →
      lookupKey fsg k = lookupKey fsf k :=
    fun k hk => step_merge_frame _ _ _ _ _ hm7 k hk
  have f8 : ∀ k, k ≠ "pinned_tweet" → lookupKey gs k = lookupKey fsg k :=
    fun k hk => step_attach_frame _ _ _ _ _ h8 k hk
  refine ⟨hvh, ?_, ?_, ?_, ?_, ?_, ?_, ?_, s8h⟩
  · refine settledA_of_eq _ _ _ _ _ ?_ ?_ s1a <;>
      rw [f8 _ (by decide), f7 _ (by decide), f6 _ (by decide),
        f5 _ (by decide), f4 _ (by decide), f3 _ (by decide),
        f2 _ (by decide)]
  · refine settledA_of_eq _ _ _ _ _ ?_ ?_ s2b <;>
      rw [f8 _ (by decide), f7 _ (by decide), f6 _ (by decide),
        f5 _ (by decide), f4 _ (by decide), f3 _ (by decide)]
  · refine settledM_of_eq _ _ _ ?_ ?_ s3c <;>
      rw [f8 _ (by decide), f7 _ (by decide), f6 _ (by decide),
        f5 _ (by decide), f4 _ (by decide)]
  · refine settledP_of_eq _ _ _ ?_ ?_ s4d <;>
      rw [f8 _ (by decide), f7 _ (by decide), f6 _ (by decide),
        f5 _ (by decide)]
  · refine settledG_of_eq _ _ _ ?_ s5e
    rw [f8 _ (by decide), f7 _ (by decide), f6 _ (by decide)]
  · refine settledL_of_eq _ _ _ _ _ ?_ s6f
    rw [f8 _ (by decide), f7 _ (by decide)]
  · refine settledL_of_eq _ _ _ _ _ ?_ s7g
    rw [f8 _ (by decide)]

theorem good_of_expand (t : Tables) (ht : FlatTables t) :
    ∀ (n : Nat) (p r : Json), jsize p ≤ n →
      expand_payload t p = some r → Good t r := by
  intro n
  induction n with
  | zero =>
      intro p r hs _
      cases p <;> (rw [jsize] at hs) <;> omega
  | succ n ih =>
      intro p r hs hex
      cases p with
      | null => cases hex
      | bool b => cases hex; exact Good.bool b
      | int n2 => cases hex; exact Good.int n2
      | str s => cases hex; exact Good.str s
      | arr xs =>
          rw [expand_payload] at hex
          cases hys : expand_list t xs with
          | none => rw [hys] at hex; cases hex
          | some ys =>
              rw [hys] at hex
              simp at hex
              subst hex
              refine Good.arr ys ?_
              intro y hy
              obtain ⟨x, hx, hfx⟩ := expand_list_members t xs ys hys y hy
              refine ih x y ?_ hfx
              have := jsize_mem_list x xs hx
              rw [jsize] at hs
              omega
      | obj fs =>
          rw [expand_payload] at hex
          simp only [Option.bind_eq_bind, Option.bind_eq_some] at hex
          obtain ⟨fs2, h2, gs, h3, hr⟩ := hex
          simp only [Option.pure_def, Option.some.injEq] at hr
          subst hr
          have hvals2 : ∀ kv ∈ fs2, Good t kv.2 := by
            intro kv hkv
            obtain ⟨kv0, hkv0, hfkv0⟩ :=
              expand_fields_members t fs fs2 h2 kv hkv
            refine ih kv0.2 kv.2 ?_ hfkv0
            have := jsize_mem_fields kv0 fs hkv0
            rw [jsize] at hs
            omega
          obtain ⟨hgvals, hgsettled⟩ :=
            triggers_establish t ht fs2 gs hvals2 h3
          exact Good.obj gs hgvals hgsettled

/-- C8, amended: the projection is idempotent provided the side tables are
flat in the strengthened sense of `FlatTables`: every table entry is free of
reference (and attached) keys everywhere inside it, and the user and tweet
tables are self-consistent under re-lookup of a merged-in entry's
`username` / `id` field.  (The counterexample shows the claim's weaker side
condition — each entry merely being a fixed point of the projection — does
not suffice.) -/
theorem C8_amended (t : Tables) (ht : FlatTables t) (p r : Json)
    (h : expand_payload t p = some r) : expand_payload t r = some r :=
  expand_of_good t r (good_of_expand t ht (jsize p) p r le_rfl h)

/-- Witness for `C8_amended` at concrete flat tables: re-projecting the
already-projected `c8w_item` leaves it unchanged. -/
theorem C8_amended_witness :
    expand_payload c8w_tables c8w_once = some c8w_once :=
  C8_amended c8w_tables
    ⟨by decide, by decide, by decide, by decide, by decide⟩
    c8w_item c8w_once (by decide)

/-! ## Monotonicity traces -/

theorem mono_pair_refl (am : Bool) (s : SState) : mono_pair am s s :=
  ⟨le_rfl, fun _ => le_rfl⟩

theorem mono_pair_trans (am : Bool) (a b c : SState)
    (h1 : mono_pair am a b) (h2 : mono_pair am b c) : mono_pair am a c :=
  ⟨le_trans h1.1 h2.1, fun h => le_trans (h1.2 h) (h2.2 h)⟩

theorem mono_trace_head (am : Bool) (a b : SState)
    (evs : List (Event × SState)) (f : SState) (h : mono_pair am a b)
    (ht : mono_trace am b evs f) : mono_trace am a evs f := by
  cases evs with
  | nil => exact mono_pair_trans am a b f h ht
  | cons e evs =>
      exact ⟨mono_pair_trans am a b e.2 h ht.1, ht.2⟩

theorem mono_trace_append (am : Bool) (s : SState)
    (evs1 : List (Event × SState)) (m : SState)
    (evs2 : List (Event × SState)) (f : SState)
    (h1 : mono_trace am s evs1 m) (h2 : mono_trace am m evs2 f) :
    mono_trace am s (evs1 ++ evs2) f := by
  induction evs1 generalizing s with
  | nil => exact mono_trace_head am s m evs2 f h1 h2
  | cons e evs1 ih =>
      exact ⟨h1.1, ih e.2 h1.2⟩

theorem mono_trace_one (am : Bool) (s : SState) (e : Event × SState)
    (f : SState) (h1 : mono_pair am s e.2) (h2 : mono_pair am e.2 f) :
    mono_trace am s [e] f :=
  ⟨h1, h2⟩

/-! ## C1 counterexample, C3, C4 counterexample (concrete runs) -/

/-- C1 counterexample, refuting each part of the claimed invariant that
fails.  (1) Request cap: the loop guard checks `n_requests <= max_requests`
before issuing the request that then increments the counter, so with
`max_requests = 1` and pages that keep supplying a next token the run
completes 2 requests.  (2) Item cap in the page output format `r`:
`total_results += meta["result_count"]` adds a whole page's count after
yielding it, so with `max_tweets = 1` and a page reporting `result_count`
5 the item counter ends at 5.  (3) Monotonicity of the item counter in
format `r`: the same statement adds whatever integer the page reports, so
a page with `result_count` -3 drives `total_results` from its initial 0
down to -3 — the counter is not non-decreasing. -/
theorem C1_counterexample :
    (c1cfg.max_requests = 1 ∧
      (stream_run c1cfg c1net [] 5).final.n_requests = 2 ∧
      ¬ (((stream_run c1cfg c1net [] 5).final.n_requests : Int) ≤
          c1cfg.max_requests)) ∧
    (c1rcfg.max_tweets = 1 ∧
      (stream_run c1rcfg c1rnet [] 5).final.total_results = 5 ∧
      ¬ ((stream_run c1rcfg c1rnet [] 5).final.total_results ≤
          c1rcfg.max_tweets)) ∧
    ((init_state []).total_results = 0 ∧
      (stream_run c1dcfg c1dnet [] 5).final.total_results = -3 ∧
      ¬ ((init_state []).total_results ≤
          (stream_run c1dcfg c1dnet [] 5).final.total_results)) := by
  refine ⟨⟨rfl, by decide, by decide⟩, ⟨rfl, by decide, by decide⟩,
    ⟨rfl, by decide, by decide⟩⟩

/-- C3, code bug: at the failing input (a good first page, then a body that
is not valid JSON) the engine does not end the stream at the malformed
response: `execute_request` prints and keeps the previous page's state, so
the stream re-emits the first page's tweet (three emissions of the same
tweet in total), keeps issuing requests (three in total), and finally ends
normally at the item cap — not at the malformed page. -/
theorem C3_code_bug :
    ((stream_run c3cfg c3net [] 6).trace.map Prod.fst).count
        (.emit c3tweet) = 3 ∧
    ((stream_run c3cfg c3net [] 6).trace.map Prod.fst).count
        .print_parse_error = 2 ∧
    (stream_run c3cfg c3net [] 6).final.n_requests = 3 ∧
    (stream_run c3cfg c3net [] 6).exit = .normal := by
  refine ⟨by decide, by decide, by decide, by decide⟩

/-- C4 counterexample: when the request executor raises while fetching the
second page, the generator propagates the exception without any
`session.close()` (there is no `try`/`finally` around the loop): the trace
contains no close event and the session is left open. -/
theorem C4_counterexample :
    (stream_run c3cfg c4net [] 6).exit = .raised ∧
    (stream_run c3cfg c4net [] 6).final.session_open = true ∧
    ((stream_run c3cfg c4net [] 6).trace.map Prod.fst).count
        .close_session = 0 := by
  refine ⟨by decide, by decide, by decide⟩

/-! ## Generator-step postconditions -/

theorem last_state_cons (e : Event × SState) (evs : List (Event × SState))
    (s : SState) : last_state (e :: evs) s = last_state evs e.2 := by
  cases evs with
  | nil => simp [last_state]
  | cons f fs =>
      rw [last_state, last_state, List.getLast?_cons_cons]
      rw [List.getLast?_eq_getLast (f :: fs) (by simp)]
      simp

theorem out_state_cons (r : Option SState) (e : Event × SState)
    (evs : List (Event × SState)) (s : SState) :
    out_state r (e :: evs) s = out_state r evs e.2 := by
  cases r with
  | some s1 => rfl
  | none => simp [out_state, last_state_cons]

theorem execute_request_post (cfg : StreamCfg) (net : Nat → PageBody)
    (s : SState) (evs : List (Event × SState)) (r : Option SState)
    (he : execute_request cfg net s = (evs, r))
    (hn : (s.n_requests : Int) ≤ max cfg.max_requests 0)
    (hs : s.session_open = true)
    (hinv : C1Inv cfg s) :
    (∀ e ∈ evs, C1Inv cfg e.2) ∧
    (∀ e ∈ evs, ∀ j, e.1 ≠ Event.emit j) ∧
    mono_trace (per_item_mode cfg) s evs (out_state r evs s) ∧
    C1Inv cfg (out_state r evs s) ∧
    (out_state r evs s).session_open = true := by
  obtain ⟨hn1, ht1⟩ := hinv
  by_cases h20 : s.n_requests % 20 = 0 ∧ s.n_requests > 1 <;>
    simp only [execute_request, h20, if_true, if_false, ite_true, ite_false,
      reduceIte] at he <;>
    split at he <;>
    (try split at he) <;>
    (try split at he) <;>
    injection he with h1 h2 <;>
    subst h1 <;> subst h2 <;>
    simp_all [C1Inv, mono_trace, mono_pair, out_state, last_state]

theorem output_m_loop_post (cfg : StreamCfg) (am : Bool) :
    ∀ (tws : List Json) (s : SState) (evs : List (Event × SState))
      (s3 : SState), output_m_loop cfg tws s = (evs, s3) →
      s.total_results ≤ max cfg.max_tweets 0 →
      (∀ e ∈ evs, e.2.total_results ≤ max cfg.max_tweets 0 ∧
        e.2.n_requests = s.n_requests ∧
        e.2.session_open = s.session_open) ∧
      mono_trace am s evs s3 ∧
      s3.total_results ≤ max cfg.max_tweets 0 ∧
      s3.n_requests = s.n_requests ∧
      s3.session_open = s.session_open ∧
      s3.includes = s.includes ∧ s3.meta = s.meta := by
  intro tws
  induction tws with
  | nil =>
      intro s evs s3 he hb
      simp only [output_m_loop] at he
      injection he with h1 h2
      subst h1; subst h2
      exact ⟨by simp, mono_pair_refl am s, hb, rfl, rfl, rfl, rfl⟩
  | cons tw rest ih =>
      intro s evs s3 he hb
      simp only [output_m_loop] at he
      split at he
      · injection he with h1 h2
        subst h1; subst h2
        exact ⟨by simp, mono_pair_refl am s, hb, rfl, rfl, rfl, rfl⟩
      · rename_i hlt
        rcases hrec : output_m_loop cfg rest
            { s with total_results := s.total_results + 1 } with ⟨evs2, s4⟩
        rw [hrec] at he
        injection he with h1 h2
        subst h1; subst h2
        have hb2 : ({ s with total_results := s.total_results + 1 }
            : SState).total_results ≤ max cfg.max_tweets 0 := by
          simp only []
          have := le_max_left cfg.max_tweets (0 : Int)
          omega
        obtain ⟨ihev, ihmono, ihb, ihn, ihs, ihinc, ihm⟩ :=
          ih _ evs2 s4 hrec hb2
        refine ⟨?_, ⟨⟨le_rfl, fun _ => by simp only []; omega⟩, ihmono⟩,
          ihb, ihn, ihs, ihinc, ihm⟩
        intro e hme
        rcases List.mem_cons.mp hme with h | h
        · subst h
          exact ⟨hb2, rfl, rfl⟩
        · exact ihev e h

theorem output_a_loop_post (cfg : StreamCfg) (t : Tables) (am : Bool) :
    ∀ (tws : List Json) (s : SState) (evs : List (Event × SState))
      (r : Option SState), output_a_loop cfg t tws s = (evs, r) →
      s.total_results ≤ max cfg.max_tweets 0 →
      (∀ e ∈ evs, e.2.total_results ≤ max cfg.max_tweets 0 ∧
        e.2.n_requests = s.n_requests ∧
        e.2.session_open = s.session_open) ∧
      mono_trace am s evs (out_state r evs s) ∧
      (out_state r evs s).total_results ≤ max cfg.max_tweets 0 ∧
      (out_state r evs s).n_requests = s.n_requests ∧
      (out_state r evs s).session_open = s.session_open := by
  intro tws
  induction tws with
  | nil =>
      intro s evs r he hb
      simp only [output_a_loop] at he
      injection he with h1 h2
      subst h1; subst h2
      exact ⟨by simp, mono_pair_refl am s, hb, rfl, rfl⟩
  | cons tw rest ih =>
      intro s evs r he hb
      simp only [output_a_loop] at he
      split at he
      · injection he with h1 h2
        subst h1; subst h2
        exact ⟨by simp, mono_pair_refl am s, hb, rfl, rfl⟩
      · rename_i hlt
        split at he
        · injection he with h1 h2
          subst h1; subst h2
          refine ⟨?_, ⟨mono_pair_refl am s, mono_pair_refl am s⟩,
            hb, rfl, rfl⟩
          intro e hme
          rw [List.mem_singleton] at hme
          subst hme
          exact ⟨hb, rfl, rfl⟩
        · rename_i y hy
          rcases hrec : output_a_loop cfg t rest
              { s with total_results := s.total_results + 1 } with ⟨evs2, r2⟩
          rw [hrec] at he
          injection he with h1 h2
          subst h1; subst h2
          have hb2 : ({ s with total_results := s.total_results + 1 }
              : SState).total_results ≤ max cfg.max_tweets 0 := by
            simp only []
            have := le_max_left cfg.max_tweets (0 : Int)
            omega
          obtain ⟨ihev, ihmono, ihb, ihn, ihs⟩ := ih _ evs2 r2 hrec hb2
          rw [out_state_cons]
          refine ⟨?_, ⟨⟨le_rfl, fun _ => by simp only []; omega⟩, ihmono⟩,
            ihb, ihn, ihs⟩
          intro e hme
          rcases List.mem_cons.mp hme with h | h
          · subst h
            exact ⟨hb2, rfl, rfl⟩
          · exact ihev e h

theorem output_r_post (cfg : StreamCfg) (s : SState)
    (evs : List (Event × SState)) (r : Option SState)
    (he : output_r cfg s = (evs, r)) :
    (∀ e ∈ evs, e.2.n_requests = s.n_requests ∧
      e.2.session_open = s.session_open) ∧
    mono_trace false s evs (out_state r evs s) ∧
    (out_state r evs s).n_requests = s.n_requests ∧
    (out_state r evs s).session_open = s.session_open := by
  simp only [output_r] at he
  split at he <;>
    (try split at he) <;>
    (try split at he) <;>
    (try split at he) <;>
    injection he with h1 h2 <;>
    subst h1 <;> subst h2 <;>
    simp_all [mono_trace, mono_pair, out_state, last_state]

theorem formatted_output_post (cfg : StreamCfg) (s : SState)
    (evs : List (Event × SState)) (r : Option SState)
    (he : formatted_output cfg s = (evs, r))
    (hinv : C1Inv cfg s) (hs : s.session_open = true) :
    (∀ e ∈ evs, C1Inv cfg e.2 ∧ e.2.session_open = true) ∧
    mono_trace (per_item_mode cfg) s evs (out_state r evs s) ∧
    C1Inv cfg (out_state r evs s) ∧
    (out_state r evs s).session_open = true := by
  obtain ⟨hn1, ht1⟩ := hinv
  simp only [formatted_output] at he
  split at he
  · -- the table construction raised
    injection he with h1 h2
    subst h1; subst h2
    simp_all [C1Inv, mono_trace, mono_pair, out_state, last_state]
  · rename_i t htab
    by_cases hr : cfg.output_format = "r"
    · rw [if_pos hr] at he
      have hpm : per_item_mode cfg = false := by
        rw [per_item_mode, hr]; decide
      obtain ⟨hev, hmono, hon, hos⟩ := output_r_post cfg s evs r he
      rw [hpm]
      refine ⟨?_, hmono, ⟨by rw [hon]; exact hn1, ?_⟩, by rw [hos]; exact hs⟩
      · intro e hme
        obtain ⟨hen, hes⟩ := hev e hme
        exact ⟨⟨by rw [hen]; exact hn1, fun hh => by rw [hpm] at hh; cases hh⟩,
          by rw [hes]; exact hs⟩
      · intro hh
        rw [hpm] at hh; cases hh
    · rw [if_neg hr] at he
      by_cases ha : cfg.output_format = "a"
      · rw [if_pos ha] at he
        have hpm : per_item_mode cfg = true := by
          rw [per_item_mode, ha]; decide
        have htb : s.total_results ≤ max cfg.max_tweets 0 := ht1 hpm
        split at he
        · injection he with h1 h2
          subst h1; subst h2
          simp_all [C1Inv, mono_trace, mono_pair, out_state, last_state]
        · rename_i v hv
          split at he
          · injection he with h1 h2
            subst h1; subst h2
            simp_all [C1Inv, mono_trace, mono_pair, out_state, last_state]
          · rename_i tws htws
            obtain ⟨hev, hmono, hob, hon, hos⟩ :=
              output_a_loop_post cfg t (per_item_mode cfg) tws s evs r he htb
            refine ⟨?_, hmono, ⟨by rw [hon]; exact hn1, fun _ => hob⟩,
              by rw [hos]; exact hs⟩
            intro e hme
            obtain ⟨heb, hen, hes⟩ := hev e hme
            exact ⟨⟨by rw [hen]; exact hn1, fun _ => heb⟩,
              by rw [hes]; exact hs⟩
      · rw [if_neg ha] at he
        by_cases hm : cfg.output_format = "m"
        · rw [if_pos hm] at he
          have hpm : per_item_mode cfg = true := by
            rw [per_item_mode, hm]; decide
          have htb : s.total_results ≤ max cfg.max_tweets 0 := ht1 hpm
          split at he
          · injection he with h1 h2
            subst h1; subst h2
            simp_all [C1Inv, mono_trace, mono_pair, out_state, last_state]
          · rename_i v hv
            split at he
            · injection he with h1 h2
              subst h1; subst h2
              simp_all [C1Inv, mono_trace, mono_pair, out_state, last_state]
            · rename_i tws htws
              rcases hml : output_m_loop cfg tws s with ⟨evs1, s2⟩
              rw [hml] at he
              obtain ⟨hev, hmono, hob, hon, hos, hoinc, hom⟩ :=
                output_m_loop_post cfg (per_item_mode cfg) tws s evs1 s2
                  hml htb
              have hone : C1Inv cfg s2 ∧ s2.session_open = true :=
                ⟨⟨by rw [hon]; exact hn1, fun _ => hob⟩,
                  by rw [hos]; exact hs⟩
              have hev2 : ∀ e ∈ evs1, C1Inv cfg e.2 ∧
                  e.2.session_open = true := by
                intro e hme
                obtain ⟨heb, hen, hes⟩ := hev e hme
                exact ⟨⟨by rw [hen]; exact hn1, fun _ => heb⟩,
                  by rw [hes]; exact hs⟩
              have happ : ∀ tail : List (Event × SState),
                  (∀ e ∈ tail, e.2 = s2) →
                  (∀ e ∈ evs1 ++ tail, C1Inv cfg e.2 ∧
                    e.2.session_open = true) ∧
                  mono_trace (per_item_mode cfg) s (evs1 ++ tail) s2 := by
                intro tail htail
                constructor
                · intro e hme
                  rcases List.mem_append.mp hme with h | h
                  · exact hev2 e h
                  · rw [htail e h]; exact hone
                · refine mono_trace_append _ s evs1 s2 tail s2 hmono ?_
                  clear hmono hev2
                  induction tail with
                  | nil => exact mono_pair_refl _ s2
                  | cons f fs ihf =>
                      have hf : f.2 = s2 := htail f (by simp)
                      have h1 : mono_pair (per_item_mode cfg) s2 f.2 := by
                        rw [hf]; exact mono_pair_refl _ s2
                      have h2 : mono_trace (per_item_mode cfg) f.2 fs s2 := by
                        rw [hf]
                        exact ihf (fun e hme => htail e (by simp [hme]))
                      exact ⟨h1, h2⟩
              injection he with h1 h2
              subst h1; subst h2
              have hshape : ∃ tail : List (Event × SState),
                  (∀ e ∈ tail, e.2 = s2) ∧
                  ((match s2.includes with
                    | some inc => evs1 ++ [(Event.emit inc, s2)]
                    | none => evs1) ++
                   match s2.meta with
                   | some m => [(Event.emit m, s2)]
                   | none => []) = evs1 ++ tail := by
                cases hi : s2.includes with
                | some inc =>
                    cases hmm : s2.meta with
                    | some m =>
                        refine ⟨[(Event.emit inc, s2), (Event.emit m, s2)],
                          ?_, by simp⟩
                        intro e hme
                        simp at hme
                        rcases hme with h | h <;> rw [h]
                    | none =>
                        refine ⟨[(Event.emit inc, s2)], ?_, by simp⟩
                        intro e hme
                        simp at hme
                        rw [hme]
                | none =>
                    cases hmm : s2.meta with
                    | some m =>
                        refine ⟨[(Event.emit m, s2)], ?_, by simp⟩
                        intro e hme
                        simp at hme
                        rw [hme]
                    | none =>
                        refine ⟨[], ?_, by simp⟩
                        intro e hme
                        cases hme
              obtain ⟨tail, htail, hsh⟩ := hshape
              have hrw : (match s2.meta with
                  | some m =>
                      (match s2.includes with
                       | some inc => evs1 ++ [(Event.emit inc, s2)]
                       | none => evs1) ++ [(Event.emit m, s2)]
                  | none =>
                      match s2.includes with
                      | some inc => evs1 ++ [(Event.emit inc, s2)]
                      | none => evs1) = evs1 ++ tail := by
                cases hmm : s2.meta <;> simp only [] <;>
                  rw [← hsh] <;> rw [hmm] <;> simp
              rw [hrw]
              obtain ⟨hall, hmn⟩ := happ tail htail
              exact ⟨hall, hmn, hone.1, hone.2⟩
        · rw [if_neg hm] at he
          injection he with h1 h2
          subst h1; subst h2
          simp_all [C1Inv, mono_trace, mono_pair, out_state, last_state]

theorem stream_loop_post (cfg : StreamCfg) (net : Nat → PageBody) :
    ∀ (fuel : Nat) (s : SState) (o : StreamOutcome),
      stream_loop cfg net fuel s = o →
      s.session_open = true → C1Inv cfg s →
      (∀ e ∈ o.trace, C1Inv cfg e.2) ∧
      mono_trace (per_item_mode cfg) s o.trace o.final ∧
      C1Inv cfg o.final ∧
      (o.exit = ExitKind.normal → o.final.session_open = false ∧
        o.trace.getLast? = some (Event.close_session, o.final)) ∧
      (o.exit = ExitKind.raised → o.final.session_open = true) ∧
      (∀ e ∈ o.trace, ∀ j, e.1 = Event.emit j →
        e.2.session_open = true) := by
  intro fuel
  induction fuel with
  | zero =>
      intro s o heq hs hinv
      subst heq
      simp only [stream_loop]
      exact ⟨by simp, mono_pair_refl _ s, hinv, by simp, by simp, by simp⟩
  | succ fuel ih =>
      intro s o heq hs hinv
      simp only [stream_loop] at heq
      by_cases hct : s.current_tweets = none
      · rw [if_pos hct] at heq
        subst heq
        simp only []
        refine ⟨?_, ⟨⟨le_rfl, fun _ => le_rfl⟩, mono_pair_refl _ _⟩,
          ⟨hinv.1, hinv.2⟩, fun _ => ⟨by simp, by simp⟩, by simp, ?_⟩
        · intro e hme
          rw [List.mem_singleton] at hme
          subst hme
          exact ⟨hinv.1, hinv.2⟩
        · intro e hme j hj
          rw [List.mem_singleton] at hme
          subst hme
          cases hj
      · rw [if_neg hct] at heq
        rcases hfo : formatted_output cfg s with ⟨evs, r⟩
        rw [hfo] at heq
        cases r with
        | none =>
            simp only [] at heq
            subst heq
            obtain ⟨hev, hmono, hoinv, hopen⟩ :=
              formatted_output_post cfg s evs none hfo hinv hs
            exact ⟨fun e hme => (hev e hme).1, hmono, hoinv, by simp,
              fun _ => hopen, fun e hme j hj => (hev e hme).2⟩
        | some s1 =>
            simp only [] at heq
            obtain ⟨hev, hmono, hs1inv, hs1open⟩ :=
              formatted_output_post cfg s evs (some s1) hfo hinv hs
            by_cases hg : (match s1.next_token with
                | none => false
                | some tok => json_truthy tok) = true ∧
                s1.total_results < cfg.max_tweets ∧
                (s1.n_requests : Int) ≤ cfg.max_requests
            · rw [if_pos hg] at heq
              set B : SState := { s1 with
                request_params := merge_dicts s1.request_params
                  [("next_token", s1.next_token.getD Json.null)] } with hB
              have hpB : mono_pair (per_item_mode cfg) s1 B :=
                ⟨le_rfl, fun _ => le_rfl⟩
              have hBinv : C1Inv cfg B := ⟨hs1inv.1, hs1inv.2⟩
              have hslept : ∀ e ∈ (if cfg.search_all then
                  [(Event.slept 2, B)] else ([] : List (Event × SState))),
                  e.2 = B := by
                intro e hme
                split at hme
                · rw [List.mem_singleton] at hme
                  rw [hme]
                · cases hme
              have hsleptm : mono_trace (per_item_mode cfg) s1
                  (if cfg.search_all then [(Event.slept 2, B)] else []) B := by
                split
                · exact ⟨hpB, mono_pair_refl _ B⟩
                · exact hpB
              have hsleptne : ∀ e ∈ (if cfg.search_all then
                  [(Event.slept 2, B)] else ([] : List (Event × SState))),
                  ∀ j, e.1 ≠ Event.emit j := by
                intro e hme j
                split at hme
                · rw [List.mem_singleton] at hme
                  rw [hme]
                  simp
                · cases hme
              rcases hex : execute_request cfg net B with ⟨evs2, r2⟩
              rw [hex] at heq
              cases r2 with
              | none =>
                  simp only [] at heq
                  subst heq
                  obtain ⟨eev, enoemit, emono, efinv, efopen⟩ :=
                    execute_request_post cfg net B evs2 none hex
                      (le_trans hg.2.2 (le_max_left _ _)) hs1open hBinv
                  refine ⟨?_, ?_, efinv, by simp, fun _ => efopen, ?_⟩
                  · intro e hme
                    rcases List.mem_append.mp hme with h | h
                    · rcases List.mem_append.mp h with h2 | h2
                      · exact (hev e h2).1
                      · rw [hslept e h2]
                        exact hBinv
                    · exact eev e h
                  · exact mono_trace_append _ s (evs ++ _) B evs2 _
                      (mono_trace_append _ s evs s1 _ B hmono hsleptm) emono
                  · intro e hme j hj
                    rcases List.mem_append.mp hme with h | h
                    · rcases List.mem_append.mp h with h2 | h2
                      · exact (hev e h2).2
                      · exact absurd hj (hsleptne e h2 j)
                    · exact absurd hj (enoemit e h j)
              | some s3 =>
                  simp only [] at heq
                  subst heq
                  obtain ⟨eev, enoemit, emono, efinv, efopen⟩ :=
                    execute_request_post cfg net B evs2 (some s3) hex
                      (le_trans hg.2.2 (le_max_left _ _)) hs1open hBinv
                  obtain ⟨iev, imono, ifinv, inorm, irais, iemit⟩ :=
                    ih s3 (stream_loop cfg net fuel s3) rfl efopen efinv
                  refine ⟨?_, ?_, ifinv, ?_, irais, ?_⟩
                  · intro e hme
                    rcases List.mem_append.mp hme with h | h
                    · rcases List.mem_append.mp h with h2 | h2
                      · rcases List.mem_append.mp h2 with h3 | h3
                        · exact (hev e h3).1
                        · rw [hslept e h3]
                          exact hBinv
                      · exact eev e h2
                    · exact iev e h
                  · exact mono_trace_append _ s ((evs ++ _) ++ evs2) s3 _ _
                      (mono_trace_append _ s (evs ++ _) B evs2 s3
                        (mono_trace_append _ s evs s1 _ B hmono hsleptm)
                        emono) imono
                  · intro hx
                    refine ⟨(inorm hx).1, ?_⟩
                    rw [List.getLast?_append, (inorm hx).2]
                    rfl
                  · intro e hme j hj
                    rcases List.mem_append.mp hme with h | h
                    · rcases List.mem_append.mp h with h2 | h2
                      · rcases List.mem_append.mp h2 with h3 | h3
                        · exact (hev e h3).2
                        · exact absurd hj (hsleptne e h3 j)
                      · exact absurd hj (enoemit e h2 j)
                    · exact iemit e h j hj
            · rw [if_neg hg] at heq
              subst heq
              refine ⟨?_, ?_, ⟨hs1inv.1, hs1inv.2⟩,
                fun _ => ⟨rfl, List.getLast?_concat evs⟩, by simp, ?_⟩
              · intro e hme
                rcases List.mem_append.mp hme with h | h
                · exact (hev e h).1
                · rw [List.mem_singleton] at h
                  rw [h]
                  exact ⟨hs1inv.1, hs1inv.2⟩
              · exact mono_trace_append _ s evs s1 _ _ hmono
                  ⟨⟨le_rfl, fun _ => le_rfl⟩, mono_pair_refl _ _⟩
              · intro e hme j hj
                rcases List.mem_append.mp hme with h | h
                · exact (hev e h).2
                · rw [List.mem_singleton] at h
                  rw [h] at hj
                  cases hj

theorem stream_run_post (cfg : StreamCfg) (net : Nat → PageBody)
    (params : List (String × Json)) (fuel : Nat) :
    (∀ e ∈ (stream_run cfg net params fuel).trace, C1Inv cfg e.2) ∧
    C1Inv cfg (stream_run cfg net params fuel).final ∧
    mono_trace (per_item_mode cfg)
      { init_state params with session_open := true }
      (stream_run cfg net params fuel).trace
      (stream_run cfg net params fuel).final ∧
    ((stream_run cfg net params fuel).exit = ExitKind.normal →
      (stream_run cfg net params fuel).final.session_open = false ∧
      (stream_run cfg net params fuel).trace.getLast? =
        some (Event.close_session,
          (stream_run cfg net params fuel).final)) ∧
    ((stream_run cfg net params fuel).exit = ExitKind.raised →
      (stream_run cfg net params fuel).final.session_open = true) ∧
    (∀ e ∈ (stream_run cfg net params fuel).trace, ∀ j,
      e.1 = Event.emit j → e.2.session_open = true) := by
  simp only [stream_run]
  set S : SState := { init_state params with session_open := true } with hS
  have hn0 : (S.n_requests : Int) = 0 := rfl
  have ht0 : S.total_results = 0 := rfl
  have hs : S.session_open = true := rfl
  have hinv : C1Inv cfg S := by
    constructor
    · rw [hn0]
      have := le_max_right cfg.max_requests (0 : Int)
      omega
    · intro _
      rw [ht0]
      exact le_max_right _ _
  have hn : (S.n_requests : Int) ≤ max cfg.max_requests 0 := by
    rw [hn0]
    exact le_max_right _ _
  rcases hex : execute_request cfg net S with ⟨evs, r⟩
  cases r with
  | none =>
      simp only []
      obtain ⟨eev, enoemit, emono, efinv, efopen⟩ :=
        execute_request_post cfg net S evs none hex hn hs hinv
      refine ⟨?_, efinv, ⟨mono_pair_refl _ S, emono⟩, by simp,
        fun _ => efopen, ?_⟩
      · intro e hme
        rcases List.mem_cons.mp hme with h | h
        · rw [h]
          exact hinv
        · exact eev e h
      · intro e hme j hj
        rcases List.mem_cons.mp hme with h | h
        · rw [h] at hj
          cases hj
        · exact absurd hj (enoemit e h j)
  | some s2 =>
      simp only []
      obtain ⟨eev, enoemit, emono, efinv, efopen⟩ :=
        execute_request_post cfg net S evs (some s2) hex hn hs hinv
      obtain ⟨iev, imono, ifinv, inorm, irais, iemit⟩ :=
        stream_loop_post cfg net fuel s2 (stream_loop cfg net fuel s2) rfl
          efopen efinv
      refine ⟨?_, ifinv,
        ⟨mono_pair_refl _ S,
          mono_trace_append _ S evs s2 _ _ emono imono⟩, ?_, irais, ?_⟩
      · intro e hme
        rcases List.mem_cons.mp hme with h | h
        · rw [h]
          exact hinv
        · rcases List.mem_append.mp h with h2 | h2
          · exact eev e h2
          · exact iev e h2
      · intro hx
        refine ⟨(inorm hx).1, ?_⟩
        rw [← List.singleton_append, List.getLast?_append,
          List.getLast?_append, (inorm hx).2]
        rfl
      · intro e hme j hj
        rcases List.mem_cons.mp hme with h | h
        · rw [h] at hj
          cases hj
        · rcases List.mem_append.mp h with h2 | h2
          · exact absurd hj (enoemit e h2 j)
          · exact iemit e h2 j hj

/-- C1 amended to what actually holds of the code, each restriction forced
by a part of `C1_counterexample`: in every reachable state of a run (every
trace snapshot and the final state) the request counter `n_requests` is at
most `max(max_requests, 0) + 1` — one overshoot, since the guard
`n_requests <= max_requests` runs before the request that then increments
the counter past the cap — and `n_requests` is monotonically
non-decreasing along the whole trace, in every output format.  The item
counter `total_results` obeys its cap and its monotonicity only in the
per-item output formats `a` and `m` (`per_item_mode`): there it never
exceeds `max(max_tweets, 0)` and is non-decreasing along the trace.  In
the page format `r` neither holds (`total_results` jumps by a page's
reported `result_count` after the yield, which may overshoot the cap or
be negative), which is why `mono_trace` carries the `per_item_mode`
flag guarding the `total_results` conjunct of `mono_pair`. -/
theorem C1_amended (cfg : StreamCfg) (net : Nat → PageBody)
    (params : List (String × Json)) (fuel : Nat) :
    (∀ e ∈ (stream_run cfg net params fuel).trace, C1Inv cfg e.2) ∧
    C1Inv cfg (stream_run cfg net params fuel).final ∧
    mono_trace (per_item_mode cfg)
      { init_state params with session_open := true }
      (stream_run cfg net params fuel).trace
      (stream_run cfg net params fuel).final :=
  ⟨(stream_run_post cfg net params fuel).1,
   (stream_run_post cfg net params fuel).2.1,
   (stream_run_post cfg net params fuel).2.2.1⟩

/-- Witness for `C1_amended`: on the concrete C3 run both final-state cap
bounds delivered by the theorem hold, with the per-item hypothesis
discharged by evaluation. -/
theorem C1_amended_witness :
    ((stream_run c3cfg c3net [] 6).final.n_requests : Int) ≤
      max c3cfg.max_requests 0 + 1 ∧
    (stream_run c3cfg c3net [] 6).final.total_results ≤
      max c3cfg.max_tweets 0 :=
  ⟨(C1_amended c3cfg c3net [] 6).2.1.1,
   (C1_amended c3cfg c3net [] 6).2.1.2 (by decide)⟩

/-- C4 amended: on normal termination the session is closed and closing it
is the very last recorded event; but when the run ends in an uncaught
exception the session is left open (no `finally` cleanup exists), and every
emission happens while the session is open. -/
theorem C4_amended (cfg : StreamCfg) (net : Nat → PageBody)
    (params : List (String × Json)) (fuel : Nat) :
    ((stream_run cfg net params fuel).exit = ExitKind.normal →
      (stream_run cfg net params fuel).final.session_open = false ∧
      (stream_run cfg net params fuel).trace.getLast? =
        some (Event.close_session,
          (stream_run cfg net params fuel).final)) ∧
    ((stream_run cfg net params fuel).exit = ExitKind.raised →
      (stream_run cfg net params fuel).final.session_open = true) ∧
    (∀ e ∈ (stream_run cfg net params fuel).trace, ∀ j,
      e.1 = Event.emit j → e.2.session_open = true) :=
  ⟨(stream_run_post cfg net params fuel).2.2.2.1,
   (stream_run_post cfg net params fuel).2.2.2.2.1,
   (stream_run_post cfg net params fuel).2.2.2.2.2⟩

/-- Witness for `C4_amended`: the concrete C1 run terminates normally, and
the theorem's normal-exit clause (its hypothesis discharged by evaluation)
yields that the session ends closed. -/
theorem C4_amended_witness :
    (stream_run c1cfg c1net [] 5).final.session_open = false :=
  ((C4_amended c1cfg c1net [] 5).1 (by decide)).1

end SearchTweets
